import Mathlib

/-!
# Verification of the hyprsets launch orchestrator

A shallow embedding of the `run` module of the hyprsets repository
(`src/run/util.rs`, `src/run/lock.rs`, `src/run/actions_workspace.rs`,
`src/run/actions_layout.rs`) together with the configuration data model
(`src/config.rs`), and proofs of the frozen claims about it.

Modelling conventions:
* Rust strings (`&str` / `String`) are modelled as `List Char` (`Str`),
  which makes the character-level operations of the source (`trim`,
  `strip_prefix`, `push_str`, ...) structural.
* `f32` arithmetic is modelled as exact rational arithmetic (`ℚ`).
* Machine integers: `i32` values (pids, workspace ids) are `Int` with the
  source's explicit range checks where the source performs them
  (`str::parse::<i32>`); `u32` slot ids and `usize` counters are `Nat`.
* The external window manager, the process table and standard input are an
  explicit environment (`Env`); every externally visible interaction is
  recorded in an event trace (`Event`).  A `Dispatch::call` is one-way; its
  observable effect on the window-manager state is part of the environment
  model.  Bounded busy-polling (`wait_for_*`) is modelled by its outcome:
  the environment decides whether the awaited predicate becomes true before
  the deadline.
* `anyhow` error values are modelled structurally: a `bail!`/`context`
  error is a constructor carrying exactly the data interpolated into the
  source message.
-/

abbrev Str := List Char

/-- Rust `char::is_whitespace` (Unicode `White_Space`), restricted to the
code points of the `White_Space` property. -/
def rustIsWhitespace (c : Char) : Bool :=
  let n := c.toNat
  (9 ≤ n && n ≤ 13) || n = 32 || n = 133 || n = 160 || n = 5760 ||
  (8192 ≤ n && n ≤ 8202) || n = 8232 || n = 8233 || n = 8239 || n = 8287 || n = 12288

/-- Rust `str::trim`: remove leading and trailing whitespace. -/
def rustTrim (s : Str) : Str :=
  ((s.dropWhile rustIsWhitespace).reverse.dropWhile rustIsWhitespace).reverse

/-- Rust `u8::to_ascii_lowercase` on a char. -/
def asciiLower (c : Char) : Char :=
  if 'A' ≤ c ∧ c ≤ 'Z' then Char.ofNat (c.toNat + 32) else c

/-- Rust `str::to_ascii_lowercase`. -/
def asciiLowerStr (s : Str) : Str := s.map asciiLower

/-- Rust `str::eq_ignore_ascii_case`. -/
def eqIgnoreAsciiCase (a b : Str) : Bool :=
  asciiLowerStr a = asciiLowerStr b

/-- Rust `str::strip_prefix`. -/
def rustStripPrefix (p s : Str) : Option Str :=
  if p.isPrefixOf s then some (s.drop p.length) else none

/-- Value of a digit string. -/
def digitsToNat (ds : Str) : Nat :=
  ds.foldl (fun a c => a * 10 + (c.toNat - 48)) 0

/-- Rust `str::parse::<i32>`: optional sign, one or more ASCII digits,
value within the `i32` range; anything else is an error (`none`). -/
def parseI32 (s : Str) : Option Int :=
  match s with
  | [] => none
  | c :: rest =>
    let (neg, digits) :=
      if c = '-' then (true, rest)
      else if c = '+' then (false, rest)
      else (false, s)
    if digits = [] then none
    else if digits.all Char.isDigit then
      let v : Int := (digitsToNat digits : Nat)
      let i : Int := if neg then -v else v
      if -(2 ^ 31) ≤ i ∧ i < 2 ^ 31 then some i else none
    else none

/-- Rust `str::lines`: split on `'\n'`, dropping one trailing `'\r'` per
line and a final empty segment produced by a trailing newline. -/
def rustLines (s : Str) : List Str :=
  let segs := s.splitOn '\n'
  let segs := match segs.getLast? with
    | some [] => segs.dropLast
    | _ => segs
  segs.map fun seg => if seg.getLast? = some '\r' then seg.dropLast else seg

/-- First token of Rust `str::split_whitespace` (`.next()`). -/
def firstWhitespaceToken (s : Str) : Option Str :=
  let t := (s.dropWhile rustIsWhitespace).takeWhile (fun c => !rustIsWhitespace c)
  if t = [] then none else some t

/-! ## `src/run/util.rs` -/

/-- `shell_escape` (`src/run/util.rs`): single-quote a string, turning every
embedded `'` into `'"'"'`. -/
def shell_escape (raw : Str) : Str :=
  '\'' :: (raw.flatMap fun ch =>
    if ch = '\'' then '\'' :: '"' :: '\'' :: '"' :: '\'' :: [] else [ch]) ++ ['\'']

/-- Inner fold of `build_exec_command` over the environment layers:
`(accumulated string, has_env flag)`. -/
def envFold (layers : List (List (Str × Str))) (start : Str) : Str × Bool :=
  layers.foldl
    (fun acc env =>
      env.foldl
        (fun (acc : Str × Bool) (kv : Str × Str) =>
          ((acc.1 ++ (if acc.2 then [' '] else []) ++ kv.1 ++ ['='] ++ shell_escape kv.2),
           true))
        acc)
    (start, false)

/-- `build_exec_command` (`src/run/util.rs`): `cd <cwd> && ` prefix, then
`KEY='value'` assignments from the environment layers in order, then the
base command.  Each environment layer is an association list; the source's
`HashMap` iteration order is the list order (the claims only use
single-entry layers, for which this is exact). -/
def build_exec_command (base_cmd : Str) (cwd : Option Str)
    (env_layers : List (List (Str × Str))) : Str :=
  let exec : Str :=
    match cwd with
    | some dir => ('c' :: 'd' :: ' ' :: []) ++ shell_escape dir ++ (' ' :: '&' :: '&' :: ' ' :: [])
    | none => []
  let (exec, has_env) := envFold env_layers exec
  let exec := if has_env then exec ++ [' '] else exec
  exec ++ base_cmd

/-! ## Split-ratio conversion (`src/run/actions_layout.rs`, constants from `src/run.rs`) -/

def HYPR_SPLIT_MIN : ℚ := 1 / 10

def HYPR_SPLIT_MAX : ℚ := 19 / 10

def WINDOW_APPEAR_TIMEOUT_SECS : Nat := 8

/-- `to_hypr_split_ratio` (`src/run/actions_layout.rs` lines 227-231):
`clamp(2·max(r,0.01)/(max(r,0.01)+1), 0.1, 1.9)`, with `f32` arithmetic
modelled exactly over `ℚ`.  Rust `clamp lo hi = min (max x lo) hi`. -/
def to_hypr_split_ratio (user_ratio : ℚ) : ℚ :=
  let safe := max user_ratio (1 / 100)
  let converted := 2 * safe / (safe + 1)
  min (max converted HYPR_SPLIT_MIN) HYPR_SPLIT_MAX

/-! ## Configuration data model (`src/config.rs`) -/

inductive SplitDirection
  | horizontal
  | vertical
deriving DecidableEq, Repr

/-- `LayoutNode` (`src/config.rs`): the binary layout tree.  The source's
`WindowSlot` struct fields are inlined into the `leaf` constructor and the
`SplitNode` struct fields into the `split` constructor (same data, flattened
so that structural recursion and induction apply directly). -/
inductive LayoutNode
  | leaf (slot_id : Nat) (command : Str) (cwd : Option Str) (env : List (Str × Str))
  | split (direction : SplitDirection) (ratio : ℚ) (left : LayoutNode) (right : LayoutNode)
deriving DecidableEq, Repr

/-- Is the node a `Split`?  (The source pattern-matches `LayoutNode::Split(_)`.) -/
def LayoutNode.isSplit : LayoutNode → Bool
  | .split _ _ _ _ => true
  | _ => false

structure Workset where
  id : Str
  name : Str
  desc : Str
  workspace : Option Str
  commands : List Str
  cwd : Option Str
  env : List (Str × Str)
  layout : Option LayoutNode
deriving DecidableEq, Repr

/-- `count_slots` (`src/run/actions_layout.rs` lines 243-248). -/
def count_slots : LayoutNode → Nat
  | .leaf _ _ _ _ => 1
  | .split _ _ l r => count_slots l + count_slots r

/-- Slot ids of the leaves of a tree, in left-to-right order. -/
def leafSlots : LayoutNode → List Nat
  | .leaf i _ _ _ => [i]
  | .split _ _ l r => leafSlots l ++ leafSlots r

/-- Slot id of the leftmost leaf of a tree. -/
def leftmostSlot : LayoutNode → Nat
  | .leaf i _ _ _ => i
  | .split _ _ l _ => leftmostSlot l

/-- Subtree-occurrence: `occurs s t` holds when `s` is `t` itself or a
descendant of `t`. -/
def occurs (s : LayoutNode) : LayoutNode → Bool
  | .leaf i c w e => s = .leaf i c w e
  | .split d r l rt => s = .split d r l rt || occurs s l || occurs s rt

/-! ## Workspace model (`src/run/actions_workspace.rs`) -/

/-- `hyprland::data::WorkspaceBasic`: numeric id plus name. -/
structure WorkspaceBasic where
  id : Int
  name : Str
deriving DecidableEq, Repr

/-- A window as reported by the Window Query Gateway
(`hyprland::data::Client`, restricted to the fields the orchestrator
reads). -/
structure Client where
  address : Nat
  workspace : WorkspaceBasic
  pid : Int
  klass : Str
  title : Str
deriving DecidableEq, Repr

structure WorkspaceContext where
  workspace : WorkspaceBasic
  is_special : Bool
deriving DecidableEq, Repr

/-- `WorkspaceContext::from_basic` (lines 68-74). -/
def WorkspaceContext.from_basic (w : WorkspaceBasic) : WorkspaceContext :=
  { workspace := w, is_special := w.id ≤ 0 || ("special".toList.isPrefixOf w.name) }

/-- `WorkspaceContext::matches` (lines 76-79): id match, or non-empty-name
match. -/
def WorkspaceContext.matches (self : WorkspaceContext) (other : WorkspaceBasic) : Bool :=
  other.id = self.workspace.id ||
    (!self.workspace.name.isEmpty && other.name = self.workspace.name)

/-- `WorkspaceContext::label` (lines 81-95). -/
def WorkspaceContext.label (self : WorkspaceContext) : Str :=
  let prefixStr : Str :=
    if self.is_special then "special workspace".toList else "workspace".toList
  if self.workspace.name.isEmpty then
    prefixStr ++ [' '] ++ (toString self.workspace.id).toList
  else
    prefixStr ++ [' '] ++ self.workspace.name ++ " (id ".toList ++
      (toString self.workspace.id).toList ++ [')']

inductive WorkspaceTargetKind
  | id (i : Int)
  | name (n : Str)
  | special (n : Option Str)
deriving DecidableEq, Repr

structure WorkspaceTarget where
  kind : WorkspaceTargetKind
deriving DecidableEq, Repr

/-- `WorkspaceTarget::from_raw` (lines 98-125): trim, then try
`special:<n>`, `special` (ASCII-case-insensitively), `name:<n>`, a bare
`i32`, and finally fall back to a name. -/
def WorkspaceTarget.from_raw (raw : Str) : WorkspaceTarget :=
  let trimmed := rustTrim raw
  match rustStripPrefix "special:".toList trimmed with
  | some n => { kind := .special (some n) }
  | none =>
    if eqIgnoreAsciiCase trimmed "special".toList then
      { kind := .special none }
    else
      match rustStripPrefix "name:".toList trimmed with
      | some n => { kind := .name n }
      | none =>
        match parseI32 trimmed with
        | some i => { kind := .id i }
        | none => { kind := .name trimmed }

/-- `WorkspaceTarget::label` (lines 127-136). -/
def WorkspaceTarget.label (self : WorkspaceTarget) : Str :=
  match self.kind with
  | .id i => "workspace ".toList ++ (toString i).toList
  | .name n => "workspace '".toList ++ n ++ ['\'']
  | .special none => "special workspace".toList
  | .special (some n) => "special workspace '".toList ++ n ++ ['\'']

/-- `WorkspaceTarget::context` (lines 149-169).  `i32::MAX` is `2^31 - 1`. -/
def WorkspaceTarget.context (self : WorkspaceTarget) : WorkspaceContext :=
  let basic : WorkspaceBasic :=
    match self.kind with
    | .id i => { id := i, name := (toString i).toList }
    | .name n => { id := 2 ^ 31 - 1, name := n }
    | .special none => { id := 0, name := "special".toList }
    | .special (some n) => { id := 0, name := "special:".toList ++ n }
  WorkspaceContext.from_basic basic

/-- `WorkspaceTarget::matches` (lines 171-175). -/
def WorkspaceTarget.matches (self : WorkspaceTarget) (ctx : WorkspaceContext) : Bool :=
  ctx.matches self.context.workspace

/-- `workspace_override` (lines 177-183): the workset's workspace string,
trimmed, dropped when empty, parsed. -/
def workspace_override (ws : Workset) : Option WorkspaceTarget :=
  (ws.workspace.map rustTrim).filter (fun v => !v.isEmpty) |>.map WorkspaceTarget.from_raw

/-! ## Ancestor-pid collection (`src/run/actions_workspace.rs` lines 487-526) -/

/-- Parse the `PPid:` line out of a `/proc/<pid>/status`-style text: first
line with prefix `PPid:`, first whitespace-separated token of the rest,
parsed as `i32` (`.ok()` flattens parse failures to `none`). -/
def parsePPid (status : Str) : Option Int :=
  match (rustLines status).findSome? (rustStripPrefix "PPid:".toList) with
  | none => none
  | some rest => (firstWhitespaceToken rest).bind parseI32

/-- Loop body of `collect_ancestor_pids`.  `pids` models the `HashSet` as a
duplicate-free list (insertion order is irrelevant, only membership is
used); `proc` is the process table: the readable `/proc/<pid>/status`
contents.  Breaks on: revisit, unreadable status, missing/unparsable
`PPid`, `ppid ≤ 1`, and more than 32 hops.  The source counts hops upward
and breaks when `hops + 1 > 32`; here `fuel = 32 - hops` counts the
remaining hops downward, which is the same loop with a structurally
decreasing argument. -/
def ancestorLoop (proc : Int → Option Str) : Nat → List Int → Int → List Int
  | fuel, pids, current =>
    if current ∈ pids then pids
    else
      let pids := pids ++ [current]
      match proc current with
      | none => pids
      | some status =>
        match parsePPid status with
        | none => pids
        | some ppid =>
          if ppid ≤ 1 then pids
          else
            match fuel with
            | 0 => pids
            | fuel' + 1 => ancestorLoop proc fuel' pids ppid

/-- `collect_ancestor_pids`: the orchestrator's own pid plus every ancestor
reached by the capped process-table walk (at most 32 hops past self). -/
def collect_ancestor_pids (proc : Int → Option Str) (selfPid : Int) : List Int :=
  ancestorLoop proc 32 [] selfPid

/-- `CloseCandidate` (lines 30-34). -/
structure CloseCandidate where
  address : Nat
  klass : Str
  title : Str
  pid : Int
deriving DecidableEq, Repr

/-- `ActiveWorkspaceState` (lines 43-47). -/
structure ActiveWorkspaceState where
  context : WorkspaceContext
  candidates : List CloseCandidate
  initial_clients : Nat
deriving DecidableEq, Repr

/-- Pure core of `collect_workspace_state_with_clients` (lines 414-449):
count the clients matching the workspace, and keep as close candidates
those whose pid is neither the orchestrator's own nor an ancestor's.
(The source's `CloseCandidate` keeps address/class/title; the pid is kept
here as well so the exclusion property can be stated about candidates.) -/
def collect_workspace_state_with_clients (context : WorkspaceContext)
    (clients : List Client) (selfPid : Int) (proc : Int → Option Str) :
    ActiveWorkspaceState :=
  let ancestors := collect_ancestor_pids proc selfPid
  let matching_clients := (clients.filter (fun c => context.matches c.workspace)).length
  let candidates :=
    ((clients.filter (fun c => context.matches c.workspace && c.pid ≠ selfPid)).filter
      (fun c => c.pid ∉ ancestors)).map
      (fun c => { address := c.address, klass := c.klass, title := c.title, pid := c.pid })
  { context := context, candidates := candidates, initial_clients := matching_clients }

/-! ## External environment, events, errors -/

/-- Externally visible interactions of one launch, in order: gateway
queries, one-way dispatches, the advisory lock, and the stdin prompt. -/
inductive Event
  | lockAcquire
  | lockRelease
  | queryClients
  | queryActiveWindow
  | queryActiveMonitor
  | dispatchExec (slot : Option Nat) (cmd : Str)
  | dispatchClose (addr : Nat)
  | dispatchWorkspaceSwitch
  | dispatchFocus (addr : Nat)
  | dispatchSplitRatio (ratio : ℚ)
  | promptRead
deriving DecidableEq, Repr

/-- Fatal errors, carrying exactly the data the source interpolates into
the corresponding `bail!`/`context` message. -/
inductive RunError
  | lockFailed
  | appearTimeout (label : Str) (timeoutSecs : Nat) (observed : Nat) (expected : Nat)
  | drainTimeout (label : Str) (timeoutSecs : Nat) (observed : Nat) (expected : Nat)
  | switchTimeout (label : Str)
deriving DecidableEq, Repr

/-- Mutable state of the external window manager as seen through the query
gateway: the client list, the active window, and a fresh-address counter
for newly appearing windows. -/
structure Wm where
  clients : List Client
  active : Option Client
  nextAddr : Nat
deriving DecidableEq, Repr

/-- The environment of one launch: everything outside the orchestrator.
`appears n` decides whether the window of the `n`-th exec'd layout slot
appears on the workspace before the window-appear deadline; `closesApply`
whether dispatched closes take effect before the drain deadline;
`switchOk` whether a dispatched workspace switch is observed before the
switch deadline. -/
structure Env where
  lockOk : Bool
  stdin : Str
  selfPid : Int
  proc : Int → Option Str
  monitorActive : WorkspaceBasic
  monitorSpecial : WorkspaceBasic
  appears : Nat → Bool
  closesApply : Bool
  switchOk : Bool

/-- Result of a modelled call: outcome, window-manager state after it, and
the events it emitted. -/
abbrev Out (α : Type) := Except RunError α × Wm × List Event

/-- Number of clients on the workspace (the recurring
`clients.iter().filter(|c| workspace.matches(&c.workspace)).count()`). -/
def countOn (ctx : WorkspaceContext) (w : Wm) : Nat :=
  (w.clients.filter fun c => ctx.matches c.workspace).length

/-- A newly appeared window on the workspace: fresh address, appended to
the client list; the window manager focuses it (environment model of the
asynchronous effect of an `exec` dispatch). -/
def appendWindow (ctx : WorkspaceContext) (w : Wm) : Wm :=
  let c : Client :=
    { address := w.nextAddr, workspace := ctx.workspace, pid := 0, klass := [], title := [] }
  { clients := w.clients ++ [c], active := some c, nextAddr := w.nextAddr + 1 }

/-! ## `src/run/actions_workspace.rs`, monadic part -/

/-- `resolve_active_workspace` (lines 185-218): the active window's
workspace if any, else the focused monitor's active special workspace if
one is active, else its regular active workspace.  (The client list the
source returns alongside is unused on the launch path and dropped.) -/
def resolve_active_workspace (env : Env) (w : Wm) : Out WorkspaceContext :=
  match w.active with
  | some focused =>
    (.ok (WorkspaceContext.from_basic focused.workspace), w, [.queryClients, .queryActiveWindow])
  | none =>
    let special_ctx := WorkspaceContext.from_basic env.monitorSpecial
    let special_active :=
      special_ctx.workspace.id ≠ 0 || !(rustTrim special_ctx.workspace.name).isEmpty
    if special_active then
      (.ok special_ctx, w, [.queryClients, .queryActiveWindow, .queryActiveMonitor])
    else
      (.ok (WorkspaceContext.from_basic env.monitorActive), w,
        [.queryClients, .queryActiveWindow, .queryActiveMonitor])

/-- `wait_for_target_workspace` (lines 265-285), modelled by its outcome:
the environment decides whether the switch is observed before the
workspace-switch deadline; on success the observed matching context is the
target's own context. -/
def wait_for_target_workspace (env : Env) (target : WorkspaceTarget) (w : Wm) :
    Out WorkspaceContext :=
  if env.switchOk then (.ok target.context, w, [])
  else (.error (.switchTimeout target.label), w, [])

/-- `ensure_target_active` (lines 220-236). -/
def ensure_target_active (env : Env) (target : WorkspaceTarget) (w : Wm) :
    Out WorkspaceContext :=
  match resolve_active_workspace env w with
  | (.error e, w1, t1) => (.error e, w1, t1)
  | (.ok current_ctx, w1, t1) =>
    if target.matches current_ctx then (.ok current_ctx, w1, t1)
    else
      match wait_for_target_workspace env target w1 with
      | (r, w2, t2) => (r, w2, t1 ++ [.dispatchWorkspaceSwitch] ++ t2)

/-- `ensure_workspace_focus` (lines 238-250). -/
def ensure_workspace_focus (env : Env) (wt : Option WorkspaceTarget) (w : Wm) : Out Unit :=
  match wt with
  | none => (.ok (), w, [])
  | some target =>
    match resolve_active_workspace env w with
    | (.error e, w1, t1) => (.error e, w1, t1)
    | (.ok current_ctx, w1, t1) =>
      if target.matches current_ctx then (.ok (), w1, t1)
      else
        match ensure_target_active env target w1 with
        | (.error e, w2, t2) => (.error e, w2, t1 ++ t2)
        | (.ok _, w2, t2) => (.ok (), w2, t1 ++ t2)

/-- `resolve_launch_workspace` (lines 252-263). -/
def resolve_launch_workspace (env : Env) (ws : Workset) (w : Wm) :
    Out (Option WorkspaceTarget × WorkspaceContext) :=
  match workspace_override ws with
  | some target =>
    match ensure_target_active env target w with
    | (.error e, w1, t1) => (.error e, w1, t1)
    | (.ok ctx, w1, t1) => (.ok (some target, ctx), w1, t1)
  | none =>
    match resolve_active_workspace env w with
    | (.error e, w1, t1) => (.error e, w1, t1)
    | (.ok ctx, w1, t1) => (.ok (none, ctx), w1, t1)

/-- Affirmative cleanup answer (line 366):
`matches!(input.trim().to_ascii_lowercase().as_str(), "y" | "yes")`. -/
def isAffirmative (input : Str) : Bool :=
  let ans := asciiLowerStr (rustTrim input)
  ans = "y".toList || ans = "yes".toList

/-- The close loop of `clean_workspace` (lines 374-391): dispatch one close
per candidate; whether a close takes effect on the window-manager state is
the environment's `closesApply`. -/
def closeAll (env : Env) : List CloseCandidate → Wm → Wm × List Event
  | [], w => (w, [])
  | c :: rest, w =>
    let w1 :=
      if env.closesApply then
        { w with
          clients := w.clients.filter fun cl => cl.address ≠ c.address
          active := w.active.filter fun cl => cl.address ≠ c.address }
      else w
    let (w2, evs) := closeAll env rest w1
    (w2, .dispatchClose c.address :: evs)

/-- `wait_for_clients_at_most` (lines 451-485), modelled by its outcome:
one query, then either the drained count is within bound or the
window-disappear deadline elapsed. -/
def wait_for_clients_at_most (ctx : WorkspaceContext) (maxCount : Nat) (w : Wm) : Out Unit :=
  let count := countOn ctx w
  if count ≤ maxCount then (.ok (), w, [.queryClients])
  else
    (.error (.drainTimeout ctx.label WINDOW_APPEAR_TIMEOUT_SECS count maxCount), w,
      [.queryClients])

inductive WorkspaceCleanAction
  | proceed
  | cancelled
deriving DecidableEq, Repr

/-- Close-and-drain phase of `clean_workspace` (lines 372-397), entered
after an empty-candidate check and (unless pre-confirmed) an affirmative
answer. -/
def cleanClosePhase (env : Env) (ctx : WorkspaceContext) (st : ActiveWorkspaceState)
    (w : Wm) : Out WorkspaceCleanAction :=
  let expected_remaining := st.initial_clients - st.candidates.length
  let (w1, closeEvents) := closeAll env st.candidates w
  match wait_for_clients_at_most ctx expected_remaining w1 with
  | (.error e, w2, t2) => (.error e, w2, closeEvents ++ t2)
  | (.ok _, w2, t2) => (.ok .proceed, w2, closeEvents ++ t2)

/-- `clean_workspace` (lines 338-398). -/
def clean_workspace (env : Env) (ctx : WorkspaceContext) (preconfirm : Bool) (w : Wm) :
    Out WorkspaceCleanAction :=
  let st := collect_workspace_state_with_clients ctx w.clients env.selfPid env.proc
  if st.candidates.isEmpty then (.ok .proceed, w, [.queryClients])
  else if preconfirm then
    match cleanClosePhase env ctx st w with
    | (r, w1, t1) => (r, w1, .queryClients :: t1)
  else if isAffirmative env.stdin then
    match cleanClosePhase env ctx st w with
    | (r, w1, t1) => (r, w1, .queryClients :: .promptRead :: t1)
  else
    (.ok .cancelled, w, [.queryClients, .promptRead])

/-! ## `src/run/actions_layout.rs` -/

/-- The `&mut` state threaded through the layout walk: launched count,
known client addresses, already-launched slot ids.  The source's
`HashSet`s are modelled as duplicate-free lists (only membership and
insertion are used). -/
structure Replay where
  launched : Nat
  known : List Nat
  launchedSlots : List Nat
deriving DecidableEq, Repr

/-- Result of one layout call: anchor (or error), the caller's
`pending_ratio` after the call, the threaded replay state, the
window-manager state, and the emitted events. -/
abbrev LayoutOut := Except RunError (Option Nat) × Option ℚ × Replay × Wm × List Event

/-- `active_address_on_workspace` (lines 274-280). -/
def active_address_on_workspace (ctx : WorkspaceContext) (w : Wm) : Out (Option Nat) :=
  let a :=
    match w.active with
    | some c => if ctx.matches c.workspace then some c.address else none
    | none => none
  (.ok a, w, [.queryActiveWindow])

/-- `newly_added_address` (lines 282-290): first listed client on the
workspace whose address is not yet known. -/
def newly_added_address (ctx : WorkspaceContext) (known : List Nat) (w : Wm) :
    Out (Option Nat) :=
  let a :=
    ((w.clients.filter fun c => ctx.matches c.workspace).map Client.address).find?
      fun addr => addr ∉ known
  (.ok a, w, [.queryClients])

/-- `focus_window` (lines 250-272): dispatch a focus (the window manager
responds by focusing that window, if listed), re-assert workspace focus,
and read back the active window (the verification result is only
logged). -/
def focus_window (env : Env) (wt : Option WorkspaceTarget) (addr : Nat) (w : Wm) :
    Out Unit :=
  let w1 := { w with active := w.clients.find? fun c => c.address = addr }
  match ensure_workspace_focus env wt w1 with
  | (.error e, w2, t2) => (.error e, w2, .dispatchFocus addr :: t2)
  | (.ok _, w2, t2) => (.ok (), w2, .dispatchFocus addr :: (t2 ++ [.queryActiveWindow]))

/-- `wait_for_clients_on_workspace` (lines 336-374), modelled by its
outcome: one query, then either the count reached the target or the
window-appear deadline elapsed with the observed count. -/
def wait_for_clients_on_workspace (ctx : WorkspaceContext) (target : Nat) (w : Wm) :
    Out Unit :=
  let count := countOn ctx w
  if target ≤ count then (.ok (), w, [.queryClients])
  else
    (.error (.appearTimeout ctx.label WINDOW_APPEAR_TIMEOUT_SECS count target), w,
      [.queryClients])

/-- Anchor computation of the leaf arm (lines 116-120): the newest unknown
address on the workspace (`newly_added_address`), falling back to the
active window (`.or_else`, so the second query is only issued when the
first finds nothing); a found anchor is inserted into the known set. -/
def anchorStep (ctx : WorkspaceContext) (r : Replay) (w : Wm) :
    Option Nat × Replay × Wm × List Event :=
  match newly_added_address ctx r.known w with
  | (newA, w4, t4) =>
    let na := newA.toOption.join
    match
      (match na with
       | some a => ((some a : Option Nat), w4, ([] : List Event))
       | none =>
         match active_address_on_workspace ctx w4 with
         | (a, w5, t5) => (a.toOption.join, w5, t5)) with
    | (anchor, w6, t6) =>
      let r' :=
        match anchor with
        | some addr =>
          if addr ∈ r.known then r else { r with known := r.known ++ [addr] }
        | none => r
      (anchor, r', w6, t4 ++ t6)

/-- Leaf arm of `run_layout_inner` (lines 98-131).  The launched-slot guard
fires first; otherwise: assert workspace focus, dispatch the exec, bump the
launched counter, let the environment decide whether the window appears
before polling, apply a pending split ratio, and compute the anchor as the
newest unknown address falling back to the active window. -/
def runLeaf (env : Env) (wt : Option WorkspaceTarget) (ctx : WorkspaceContext)
    (ws : Workset) (base : Nat) (slotId : Nat) (cmd : Str) (cwdO : Option Str)
    (envO : List (Str × Str)) (pending : Option ℚ) (r : Replay) (w : Wm) : LayoutOut :=
  if slotId ∈ r.launchedSlots then
    match active_address_on_workspace ctx w with
    | (a, w1, t1) => (a, pending, r, w1, t1)
  else
    let r := { r with launchedSlots := r.launchedSlots ++ [slotId] }
    match ensure_workspace_focus env wt w with
    | (.error e, w1, t1) => (.error e, pending, r, w1, t1)
    | (.ok _, w1, t1) =>
      let cwd := cwdO.orElse fun _ => ws.cwd
      let exec := build_exec_command cmd cwd [ws.env, envO]
      let k := r.launched
      let r := { r with launched := r.launched + 1 }
      let w2 := if env.appears k then appendWindow ctx w1 else w1
      match wait_for_clients_on_workspace ctx (base + r.launched) w2 with
      | (.error e, w3, t3) =>
        (.error e, pending, r, w3, t1 ++ [.dispatchExec (some slotId) exec] ++ t3)
      | (.ok _, w3, t3) =>
        let ratioEvents : List Event :=
          match pending with
          | some ratio => [.dispatchSplitRatio ratio]
          | none => []
        match anchorStep ctx r w3 with
        | (anchor, r2, w4, t4) =>
          (.ok anchor, none, r2, w4,
            t1 ++ [.dispatchExec (some slotId) exec] ++ t3 ++ ratioEvents ++ t4)

/-- `run_left_anchor` (lines 292-334): replay exactly the leftmost leaf of
the subtree (descending through splits), so a nested-split left child gets
an anchor without replaying its whole subtree.  The source's Leaf arm
calls `run_layout_inner` on the leaf node, whose Leaf arm is `runLeaf`;
that one delegation step is inlined here so the recursion is structural. -/
def runLeftAnchor (env : Env) (wt : Option WorkspaceTarget) (ctx : WorkspaceContext)
    (ws : Workset) (base : Nat) :
    LayoutNode → Option ℚ → Replay → Wm → LayoutOut
  | .leaf slotId cmd cwdO envO, pending, r, w =>
    runLeaf env wt ctx ws base slotId cmd cwdO envO pending r w
  | .split _ _ l _, pending, r, w =>
    runLeftAnchor env wt ctx ws base l pending r w

/-- `run_layout_inner` (lines 84-225). -/
def runLayoutInner (env : Env) (wt : Option WorkspaceTarget) (ctx : WorkspaceContext)
    (ws : Workset) (base : Nat) :
    LayoutNode → Option ℚ → Replay → Wm → LayoutOut
  | .leaf slotId cmd cwdO envO, pending, r, w =>
    runLeaf env wt ctx ws base slotId cmd cwdO envO pending r w
  | .split _ ratio l rt, pending, r, w =>
    let hypr := to_hypr_split_ratio ratio
    let leftWasSplit := l.isSplit
    let leftPass :=
      if l.isSplit then runLeftAnchor env wt ctx ws base l pending r w
      else runLayoutInner env wt ctx ws base l pending r w
    match leftPass with
    | (.error e, p1, r1, w1, t1) => (.error e, p1, r1, w1, t1)
    | (.ok leftAnchor, p1, r1, w1, t1) =>
      let focusStep :=
        match leftAnchor with
        | some addr => focus_window env wt addr w1
        | none => ensure_workspace_focus env wt w1
      match focusStep with
      | (.error e, w2, t2) => (.error e, p1, r1, w2, t1 ++ t2)
      | (.ok _, w2, t2) =>
        match runLayoutInner env wt ctx ws base rt (some hypr) r1 w2 with
        | (.error e, _, r3, w3, t3) => (.error e, p1, r3, w3, t1 ++ t2 ++ t3)
        | (.ok rightAnchor, _, r3, w3, t3) =>
          match wait_for_clients_on_workspace ctx (base + r3.launched) w3 with
          | (.error e, w4, t4) => (.error e, p1, r3, w4, t1 ++ t2 ++ t3 ++ t4)
          | (.ok _, w4, t4) =>
            if leftWasSplit then
              let refocusStep :=
                match leftAnchor with
                | some addr => focus_window env wt addr w4
                | none => ensure_workspace_focus env wt w4
              match refocusStep with
              | (.error e, w5, t5) => (.error e, p1, r3, w5, t1 ++ t2 ++ t3 ++ t4 ++ t5)
              | (.ok _, w5, t5) =>
                match runLayoutInner env wt ctx ws base l p1 r3 w5 with
                | (.error e, p6, r6, w6, t6) =>
                  (.error e, p6, r6, w6, t1 ++ t2 ++ t3 ++ t4 ++ t5 ++ t6)
                | (.ok remainingLeft, p6, r6, w6, t6) =>
                  (.ok (leftAnchor.or (rightAnchor.or remainingLeft)), p6, r6, w6,
                    t1 ++ t2 ++ t3 ++ t4 ++ t5 ++ t6)
            else
              (.ok (leftAnchor.or rightAnchor), p1, r3, w4, t1 ++ t2 ++ t3 ++ t4)

/-- `run_layout` (lines 49-81): snapshot the known addresses on the
workspace, then walk the tree from an empty replay state. -/
def run_layout (env : Env) (node : LayoutNode) (ws : Workset)
    (ctx : WorkspaceContext) (wt : Option WorkspaceTarget) (w : Wm) : Out Unit :=
  let known :=
    (w.clients.filter fun c => ctx.matches c.workspace).foldl
      (fun s c => if c.address ∈ s then s else s ++ [c.address]) []
  let base := known.length
  match runLayoutInner env wt ctx ws base node none
      { launched := 0, known := known, launchedSlots := [] } w with
  | (.ok _, _, _, w1, t1) => (.ok (), w1, .queryClients :: t1)
  | (.error e, _, _, w1, t1) => (.error e, w1, .queryClients :: t1)

/-- `run_commands` loop body (lines 30-44): re-assert workspace focus, then
dispatch each command in order (the fixed inter-launch sleep is not
time-modelled). -/
def runCommandsLoop (env : Env) (wt : Option WorkspaceTarget) (ws : Workset) :
    List Str → Wm → Out Unit
  | [], w => (.ok (), w, [])
  | cmd :: rest, w =>
    match ensure_workspace_focus env wt w with
    | (.error e, w1, t1) => (.error e, w1, t1)
    | (.ok _, w1, t1) =>
      let exec := build_exec_command cmd ws.cwd [ws.env]
      match runCommandsLoop env wt ws rest w1 with
      | (res, w2, t2) => (res, w2, t1 ++ [.dispatchExec none exec] ++ t2)

/-- `run_commands` (lines 19-46): the Sequential Command Runner; an empty
command list returns success immediately with zero dispatches. -/
def run_commands (env : Env) (ws : Workset) (wt : Option WorkspaceTarget) (w : Wm) :
    Out Unit :=
  if ws.commands.isEmpty then (.ok (), w, [])
  else runCommandsLoop env wt ws ws.commands w

/-! ## `run_workset` (`src/run/actions_workspace.rs` lines 287-317) and the
launch lock (`src/run/lock.rs`) -/

inductive LaunchOutcome
  | completed
  | cancelled
deriving DecidableEq, Repr

/-- Body of `run_workset` after the lock is held: resolve the target
workspace, clean it (possibly cancelling), then replay the layout or run
the commands sequentially. -/
def runWorksetBody (env : Env) (ws : Workset) (preconfirm : Bool) (w : Wm) :
    Out LaunchOutcome :=
  match resolve_launch_workspace env ws w with
  | (.error e, w1, t1) => (.error e, w1, t1)
  | (.ok (wt, ctx), w1, t1) =>
    match clean_workspace env ctx preconfirm w1 with
    | (.error e, w2, t2) => (.error e, w2, t1 ++ t2)
    | (.ok .cancelled, w2, t2) => (.ok .cancelled, w2, t1 ++ t2)
    | (.ok .proceed, w2, t2) =>
      match ws.layout with
      | some layout =>
        match run_layout env layout ws ctx wt w2 with
        | (.error e, w3, t3) => (.error e, w3, t1 ++ t2 ++ t3)
        | (.ok _, w3, t3) => (.ok .completed, w3, t1 ++ t2 ++ t3)
      | none =>
        match run_commands env ws wt w2 with
        | (.error e, w3, t3) => (.error e, w3, t1 ++ t2 ++ t3)
        | (.ok _, w3, t3) => (.ok .completed, w3, t1 ++ t2 ++ t3)

/-- `run_workset` (lines 287-317) with `acquire_launch_lock`
(`src/run/lock.rs`): the exclusive advisory lock is acquired before any
gateway interaction; an acquisition failure aborts with no events at all;
on success the lock is held for the whole launch and released when the
handle's scope ends, on every exit path (RAII). -/
def run_workset (env : Env) (ws : Workset) (preconfirm : Bool) (w : Wm) :
    Out LaunchOutcome :=
  if env.lockOk then
    match runWorksetBody env ws preconfirm w with
    | (res, w1, t1) => (res, w1, .lockAcquire :: (t1 ++ [.lockRelease]))
  else (.error .lockFailed, w, [])

/-! ## Trace observations -/

/-- Slot ids of the layout-leaf exec dispatches in a trace, in order. -/
def execSlotsOf (tr : List Event) : List Nat :=
  tr.filterMap fun e =>
    match e with
    | .dispatchExec (some s) _ => some s
    | _ => none

def Event.isExec : Event → Bool
  | .dispatchExec _ _ => true
  | _ => false

def Event.isClose : Event → Bool
  | .dispatchClose _ => true
  | _ => false

def Event.isLock : Event → Bool
  | .lockAcquire => true
  | .lockRelease => true
  | _ => false

def Event.isSwitch : Event → Bool
  | .dispatchWorkspaceSwitch => true
  | _ => false

/-- `a` is dispatched strictly before `b` in the dispatch list `xs`. -/
def Before (xs : List Nat) (a b : Nat) : Prop :=
  ∃ p q, xs = p ++ q ∧ a ∈ p ∧ b ∉ p

/-! ## The pure launch order of the layout walk

`orderRun t S` computes, purely, the slot ids `run_layout_inner` execs on
tree `t` starting from already-launched set `S` (in dispatch order),
together with the launched set afterwards; `orderAnchor` is the analogue of
`run_left_anchor`.  The bridge lemmas below prove that a successful run
dispatches exactly this list. -/

/-- Pure launch order of `run_left_anchor`: the leftmost leaf, if fresh.
(The source's Leaf arm delegates to `run_layout_inner`, whose leaf arm is
the guarded launch; the guard logic is inlined here so the recursion is
structural.) -/
def orderAnchor : LayoutNode → List Nat → List Nat × List Nat
  | .leaf i _ _ _, S => if i ∈ S then ([], S) else ([i], S ++ [i])
  | .split _ _ l _, S => orderAnchor l S

def orderRun : LayoutNode → List Nat → List Nat × List Nat
  | .leaf i _ _ _, S => if i ∈ S then ([], S) else ([i], S ++ [i])
  | .split _ _ l rt, S =>
    let first := if l.isSplit then orderAnchor l S else orderRun l S
    let second := orderRun rt first.2
    if l.isSplit then
      let third := orderRun l second.2
      (first.1 ++ second.1 ++ third.1, third.2)
    else
      (first.1 ++ second.1, second.2)

/-! ## Bridge from the operational model to the pure walk -/

/-- Events a workspace-focus helper may emit. -/
def focusEvent (e : Event) : Prop :=
  e = .queryClients ∨ e = .queryActiveWindow ∨ e = .queryActiveMonitor ∨
    e = .dispatchWorkspaceSwitch ∨ (∃ a, e = .dispatchFocus a)

/-- Pure gateway queries. -/
def queryEvent (e : Event) : Prop :=
  e = .queryClients ∨ e = .queryActiveWindow ∨ e = .queryActiveMonitor

def cexLeftTree : LayoutNode := .split .vertical 1 (.leaf 1 ['a'] none []) (.leaf 2 ['b'] none [])

def cexRightTree : LayoutNode := .leaf 3 ['c'] none []

def cexTree : LayoutNode := .split .horizontal 1 cexLeftTree cexRightTree

def cexEnv : Env :=
  { lockOk := true, stdin := ['n'], selfPid := 42, proc := fun _ => none,
    monitorActive := { id := 1, name := ['o'] }, monitorSpecial := { id := 0, name := [] },
    appears := fun _ => true, closesApply := true, switchOk := true }

def cexCtx : WorkspaceContext := WorkspaceContext.from_basic { id := 1, name := ['o'] }

def cexWorkset : Workset :=
  { id := [], name := [], desc := [], workspace := none, commands := [], cwd := none,
    env := [], layout := some cexTree }

def cexWm : Wm := { clients := [], active := none, nextAddr := 100 }

/-- The parent chain of the process-table walk: `pidChain proc self k` is
the pid reached after `k` parent hops, `none` once a record is unreadable,
`PPid` is missing/unparsable, or the parent pid is ≤ 1 (the walk's stop
conditions). -/
def pidChain (proc : Int → Option Str) (selfPid : Int) : Nat → Option Int
  | 0 => some selfPid
  | k + 1 =>
    match pidChain proc selfPid k with
    | none => none
    | some p =>
      match proc p with
      | none => none
      | some status =>
        match parsePPid status with
        | none => none
        | some ppid => if ppid ≤ 1 then none else some ppid

def c5proc : Int → Option Str := fun p => if p = 100 then some "PPid:\t10".toList else none

def c5ctx : WorkspaceContext := WorkspaceContext.from_basic { id := 1, name := [] }

def c5client : Client :=
  { address := 7, workspace := { id := 1, name := [] }, pid := 10, klass := [], title := [] }

/-- Menu of events the layout engine may emit: never the lock, never a
close, and never a workspace switch when no override target is set. -/
def layoutEvent (wt : Option WorkspaceTarget) (e : Event) : Prop :=
  e.isLock = false ∧ e.isClose = false ∧ (wt = none → e.isSwitch = false)

/-- Events cleanup may emit: queries, the stdin prompt, and close
dispatches. -/
def cleanEvent (e : Event) : Prop :=
  e = .queryClients ∨ e = .promptRead ∨ ∃ a, e = .dispatchClose a

/-- The shipped default template's workset (`src/config.rs`,
`Config::default`): its `workspace` field is `Some(String::new())`, an
empty override string. -/
def default_template_workset : Workset :=
  { id := "sample".toList, name := "Sample Workset".toList,
    desc := "Code + Browser example".toList, workspace := some [],
    commands :=
      ["code -n \"$HOME/ws/demo\"".toList,
       "omarchy-launch-browser --new-window \"https://example.com\"".toList,
       "hyprctl dispatch movefocus l".toList,
       "hyprctl dispatch splitratio exact 1.2".toList],
    cwd := none, env := [],
    layout := some (.split .horizontal (12/10)
      (.leaf 1 "code -n \"$HOME/ws/demo\"".toList none [])
      (.leaf 2 "omarchy-launch-browser --new-window \"https://example.com\"".toList
        none [])) }

/-- One window-manager client on the default monitor's workspace, owned by
a pid unrelated to the orchestrator. -/
def c4client : Client :=
  { address := 7, workspace := { id := 1, name := ['o'] }, pid := 9, klass := [],
    title := [] }

def c4wm : Wm :=
  { clients := [c4client], active := none, nextAddr := 100 }

/-- How a failed layout walk ends: either a workspace-switch timeout from a
focus step, or a window-appear timeout fully described by the error — the
workspace label, the timeout duration, observed strictly below expected —
with the whole trace ending at the failing leaf's exec dispatch followed
only by the timed-out poll query; in particular no further exec dispatch
follows the failure. -/
def timeoutAbort (ctx : WorkspaceContext) (e : RunError) (tr : List Event) : Prop :=
  (∃ lbl, e = .switchTimeout lbl) ∨
  ∃ obs exp pre slot cmd,
    e = .appearTimeout ctx.label WINDOW_APPEAR_TIMEOUT_SECS obs exp ∧ obs < exp ∧
    tr = pre ++ [.dispatchExec (some slot) cmd, .queryClients]

/-- Environment in which the first launched window appears but no later
one does. -/
def c6env : Env := { cexEnv with appears := fun k => k == 0 }

theorem count_slots_eq_length_leafSlots (t : LayoutNode) :
    count_slots t = (leafSlots t).length := by
  induction t with
  | leaf i c w e => rfl
  | split d r l rt ihl ihr =>
    simp [count_slots, leafSlots, ihl, ihr]

theorem execSlotsOf_append (a b : List Event) :
    execSlotsOf (a ++ b) = execSlotsOf a ++ execSlotsOf b :=
  List.filterMap_append a b _

theorem orderAnchor_eq (t : LayoutNode) (S : List Nat) :
    orderAnchor t S =
      if leftmostSlot t ∈ S then ([], S) else ([leftmostSlot t], S ++ [leftmostSlot t]) := by
  induction t generalizing S with
  | leaf i c w e => rfl
  | split d q l rt ihl ihr => rw [orderAnchor, ihl]; rfl

theorem leftmostSlot_mem (t : LayoutNode) : leftmostSlot t ∈ leafSlots t := by
  induction t with
  | leaf i c w e => simp [leftmostSlot, leafSlots]
  | split d q l rt ihl ihr => simp [leftmostSlot, leafSlots, ihl]

theorem orderRun_leaf (i : Nat) (c : Str) (w : Option Str) (e : List (Str × Str))
    (S : List Nat) :
    orderRun (.leaf i c w e) S = if i ∈ S then ([], S) else ([i], S ++ [i]) := by
  rw [orderRun]

theorem orderRun_split_splitLeft (d : SplitDirection) (q : ℚ) (l rt : LayoutNode)
    (S : List Nat) (h : l.isSplit = true) :
    orderRun (.split d q l rt) S =
      ((orderAnchor l S).1 ++ (orderRun rt (orderAnchor l S).2).1 ++
        (orderRun l (orderRun rt (orderAnchor l S).2).2).1,
       (orderRun l (orderRun rt (orderAnchor l S).2).2).2) := by
  rw [orderRun]; simp [h]

theorem orderRun_split_leafLeft (d : SplitDirection) (q : ℚ) (l rt : LayoutNode)
    (S : List Nat) (h : l.isSplit = false) :
    orderRun (.split d q l rt) S =
      ((orderRun l S).1 ++ (orderRun rt (orderRun l S).2).1,
       (orderRun rt (orderRun l S).2).2) := by
  rw [orderRun]; simp [h]

/-- Composition of two phases of the walk: fresh, duplicate-free exec lists
with set-extension semantics compose by appending. -/
theorem phase_append {o1 o2 S S1 S2 : List Nat} {P1 P2 : Nat → Prop}
    (h1n : o1.Nodup) (h1m : ∀ x ∈ o1, P1 x ∧ x ∉ S)
    (h1s : ∀ x, x ∈ S1 ↔ x ∈ S ∨ x ∈ o1)
    (h2n : o2.Nodup) (h2m : ∀ x ∈ o2, P2 x ∧ x ∉ S1)
    (h2s : ∀ x, x ∈ S2 ↔ x ∈ S1 ∨ x ∈ o2) :
    (o1 ++ o2).Nodup ∧ (∀ x ∈ o1 ++ o2, (P1 x ∨ P2 x) ∧ x ∉ S) ∧
      (∀ x, x ∈ S2 ↔ x ∈ S ∨ x ∈ o1 ++ o2) := by
  refine ⟨?_, ?_, ?_⟩
  · refine List.Nodup.append h1n h2n ?_
    intro x hx1 hx2
    exact (h2m x hx2).2 ((h1s x).2 (Or.inr hx1))
  · intro x hx
    rcases List.mem_append.1 hx with hx | hx
    · exact ⟨Or.inl (h1m x hx).1, (h1m x hx).2⟩
    · have h2 := (h2m x hx).2
      rw [h1s] at h2
      push_neg at h2
      exact ⟨Or.inr (h2m x hx).1, h2.1⟩
  · intro x
    rw [h2s, h1s]
    simp only [List.mem_append]
    tauto

/-- `orderAnchor` spec via its closed form. -/
theorem orderAnchor_spec (t : LayoutNode) (S : List Nat) :
    (orderAnchor t S).1.Nodup ∧
      (∀ x ∈ (orderAnchor t S).1, x ∈ leafSlots t ∧ x ∉ S) ∧
      (∀ x, x ∈ (orderAnchor t S).2 ↔ x ∈ S ∨ x ∈ (orderAnchor t S).1) := by
  rw [orderAnchor_eq]
  by_cases h : leftmostSlot t ∈ S
  · rw [if_pos h]
    refine ⟨List.nodup_nil, ?_, ?_⟩
    · intro x hx
      cases hx
    · intro x
      simp
  · rw [if_neg h]
    refine ⟨List.nodup_singleton _, ?_, ?_⟩
    · intro x hx
      have hxe := List.mem_singleton.1 hx
      subst hxe
      exact ⟨leftmostSlot_mem t, h⟩
    · intro x
      exact List.mem_append

/-- Combined structural facts about `orderRun`: the exec list is
duplicate-free, consists of leaves of `t` not yet launched, and the
resulting set is the old set plus the exec list and covers all leaves. -/
theorem orderRun_spec (t : LayoutNode) : ∀ S : List Nat,
    (orderRun t S).1.Nodup ∧
      (∀ x ∈ (orderRun t S).1, x ∈ leafSlots t ∧ x ∉ S) ∧
      (∀ x, x ∈ (orderRun t S).2 ↔ x ∈ S ∨ x ∈ (orderRun t S).1) ∧
      (∀ x ∈ leafSlots t, x ∈ (orderRun t S).2) := by
  induction t with
  | leaf i c w e =>
    intro S
    rw [orderRun_leaf]
    by_cases hi : i ∈ S
    · rw [if_pos hi]
      refine ⟨List.nodup_nil, ?_, ?_, ?_⟩
      · intro x hx
        cases hx
      · intro x
        simp
      · intro x hx
        rw [leafSlots] at hx
        have hxe := List.mem_singleton.1 hx
        subst hxe
        exact hi
    · rw [if_neg hi]
      refine ⟨List.nodup_singleton _, ?_, ?_, ?_⟩
      · intro x hx
        have hxe := List.mem_singleton.1 hx
        subst hxe
        exact ⟨by simp [leafSlots], hi⟩
      · intro x
        exact List.mem_append
      · intro x hx
        rw [leafSlots] at hx
        have hxe := List.mem_singleton.1 hx
        subst hxe
        simp
  | split d q l rt ihl ihr =>
    intro S
    cases hs : l.isSplit with
    | true =>
      rw [orderRun_split_splitLeft d q l rt S hs]
      try dsimp only
      rcases orderAnchor_spec l S with ⟨h1n, h1m, h1s⟩
      rcases ihr (orderAnchor l S).2 with ⟨h2n, h2m, h2s, h2c⟩
      rcases ihl (orderRun rt (orderAnchor l S).2).2 with ⟨h3n, h3m, h3s, h3c⟩
      have c12 := @phase_append _ _ _ _ _ (fun x => x ∈ leafSlots l)
        (fun x => x ∈ leafSlots rt) h1n h1m h1s h2n h2m h2s
      rcases c12 with ⟨c12n, c12m, c12s⟩
      have c123 := @phase_append _ _ _ _ _ (fun x => x ∈ leafSlots l ∨ x ∈ leafSlots rt)
        (fun x => x ∈ leafSlots l) c12n c12m c12s h3n h3m h3s
      rcases c123 with ⟨cn, cm, cs⟩
      refine ⟨cn, ?_, cs, ?_⟩
      · intro x hx
        rcases cm x hx with ⟨hp, hns⟩
        refine ⟨?_, hns⟩
        simp only [leafSlots, List.mem_append]
        tauto
      · intro x hx
        rw [leafSlots, List.mem_append] at hx
        rcases hx with hx | hx
        · exact h3c x hx
        · rw [h3s]
          exact Or.inl (h2c x hx)
    | false =>
      rw [orderRun_split_leafLeft d q l rt S hs]
      try dsimp only
      rcases ihl S with ⟨h1n, h1m, h1s, h1c⟩
      rcases ihr (orderRun l S).2 with ⟨h2n, h2m, h2s, h2c⟩
      have c12 := @phase_append _ _ _ _ _ (fun x => x ∈ leafSlots l)
        (fun x => x ∈ leafSlots rt) h1n h1m h1s h2n h2m h2s
      rcases c12 with ⟨cn, cm, cs⟩
      refine ⟨cn, ?_, cs, ?_⟩
      · intro x hx
        rcases cm x hx with ⟨hp, hns⟩
        refine ⟨?_, hns⟩
        simp only [leafSlots, List.mem_append]
        tauto
      · intro x hx
        rw [leafSlots, List.mem_append] at hx
        rcases hx with hx | hx
        · rw [h2s]
          exact Or.inl (h1c x hx)
        · exact h2c x hx

theorem Before.extend {xs post : List Nat} {a z : Nat} (h : Before xs a z) :
    Before (xs ++ post) a z := by
  rcases h with ⟨p, q, rfl, ha, hb⟩
  exact ⟨p, q ++ post, by simp, ha, hb⟩

theorem Before.after_prefix {pre ys : List Nat} {a z : Nat} (h : Before ys a z)
    (hz : z ∉ pre) : Before (pre ++ ys) a z := by
  rcases h with ⟨p, q, rfl, ha, hb⟩
  refine ⟨pre ++ p, q, by simp, by simp [ha], ?_⟩
  simp only [List.mem_append]
  push_neg
  exact ⟨hz, hb⟩

theorem before_head {o rest : List Nat} {a z : Nat} (ha : a ∈ o) (hz : z ∉ o) :
    Before (o ++ rest) a z :=
  ⟨o, rest, rfl, ha, hz⟩

theorem occurs_leafSlots_subset (s t : LayoutNode) (h : occurs s t = true) :
    ∀ x ∈ leafSlots s, x ∈ leafSlots t := by
  induction t with
  | leaf i c w e =>
    rw [occurs] at h
    have hse : s = .leaf i c w e := by
      exact of_decide_eq_true h
    subst hse
    intro x hx
    exact hx
  | split d q l rt ihl ihr =>
    rw [occurs] at h
    simp only [Bool.or_eq_true, decide_eq_true_eq] at h
    rcases h with (hse | hl) | hr
    · subst hse
      intro x hx
      exact hx
    · intro x hx
      rw [leafSlots, List.mem_append]
      exact Or.inl (ihl hl x hx)
    · intro x hx
      rw [leafSlots, List.mem_append]
      exact Or.inr (ihr hr x hx)

/-- The leftmost leaf of a duplicate-free tree never lies in the right
subtree of any split occurring in the tree. -/
theorem leftmostSlot_not_in_right (t : LayoutNode) (hnd : (leafSlots t).Nodup) :
    ∀ d q l rt, occurs (.split d q l rt) t = true →
      leftmostSlot t ∉ leafSlots rt := by
  induction t with
  | leaf i c w e =>
    intro d q l rt h
    rw [occurs] at h
    have := of_decide_eq_true h
    cases this
  | split d0 q0 l0 rt0 ihl ihr =>
    rw [leafSlots, List.nodup_append] at hnd
    rcases hnd with ⟨hndl, hndr, hdisj⟩
    intro d q l rt h
    rw [occurs] at h
    simp only [Bool.or_eq_true, decide_eq_true_eq] at h
    rw [leftmostSlot]
    rcases h with (hse | hl) | hr
    · cases hse
      exact fun hmem => hdisj (leftmostSlot_mem l0) hmem
    · exact ihl hndl d q l rt hl
    · intro hmem
      have hsub : ∀ x ∈ leafSlots rt, x ∈ leafSlots rt0 := by
        intro x hx
        refine occurs_leafSlots_subset _ _ hr x ?_
        rw [leafSlots, List.mem_append]
        exact Or.inr hx
      exact hdisj (leftmostSlot_mem l0) (hsub _ hmem)

theorem before_head3 {o1 o2 o3 : List Nat} {a z : Nat} (ha : a ∈ o1) (hz : z ∉ o1) :
    Before (o1 ++ o2 ++ o3) a z :=
  ⟨o1, o2 ++ o3, by simp, ha, hz⟩

theorem before_third {o1 o2 ys : List Nat} {a z : Nat} (h : Before ys a z)
    (hz1 : z ∉ o1) (hz2 : z ∉ o2) : Before (o1 ++ o2 ++ ys) a z := by
  rcases h with ⟨p, q, rfl, ha, hb⟩
  refine ⟨o1 ++ o2 ++ p, q, by simp, by simp [ha], ?_⟩
  simp only [List.mem_append]
  push_neg
  exact ⟨⟨hz1, hz2⟩, hb⟩

/-- Dispatch-order property of the pure walk: for every split occurring in
a duplicate-free tree, the leftmost leaf of its left subtree is dispatched
before every dispatched leaf of its right subtree (unless it was already
launched on entry). -/
theorem orderRun_ordered (t : LayoutNode) : ∀ S : List Nat, (leafSlots t).Nodup →
    ∀ d q l rt, occurs (.split d q l rt) t = true →
    ∀ z ∈ leafSlots rt, z ∈ (orderRun t S).1 →
    leftmostSlot l ∈ S ∨ Before (orderRun t S).1 (leftmostSlot l) z := by
  induction t with
  | leaf i c w e =>
    intro S _ d q l rt h z _ _
    rw [occurs] at h
    have := of_decide_eq_true h
    cases this
  | split d0 q0 l0 rt0 ihl ihr =>
    intro S hnd d q l rt hocc z hz hzrun
    have hnd' := hnd
    rw [leafSlots, List.nodup_append] at hnd'
    rcases hnd' with ⟨hndl, hndr, hdisj⟩
    rw [occurs] at hocc
    simp only [Bool.or_eq_true, decide_eq_true_eq] at hocc
    rcases hocc with (hse | hl) | hr
    · -- the split is the root itself
      cases hse
      cases hs : l0.isSplit with
      | true =>
        rw [orderRun_split_splitLeft d0 q0 l0 rt0 S hs] at hzrun ⊢
        dsimp only at hzrun ⊢
        rw [orderAnchor_eq] at hzrun ⊢
        by_cases hlm : leftmostSlot l0 ∈ S
        · exact Or.inl hlm
        · right
          rw [if_neg hlm] at hzrun ⊢
          refine before_head3 (by simp) ?_
          simp only [List.mem_singleton]
          intro hze
          subst hze
          exact hdisj (leftmostSlot_mem l0) hz
      | false =>
        rw [orderRun_split_leafLeft d0 q0 l0 rt0 S hs] at hzrun ⊢
        dsimp only at hzrun ⊢
        by_cases hlm : leftmostSlot l0 ∈ S
        · exact Or.inl hlm
        · right
          have hcov : leftmostSlot l0 ∈ (orderRun l0 S).2 :=
            (orderRun_spec l0 S).2.2.2 _ (leftmostSlot_mem l0)
          have hmem1 : leftmostSlot l0 ∈ (orderRun l0 S).1 := by
            rcases ((orderRun_spec l0 S).2.2.1 _).1 hcov with h | h
            · exact absurd h hlm
            · exact h
          refine before_head hmem1 ?_
          intro hz1
          exact hdisj ((orderRun_spec l0 S).2.1 z hz1).1 hz
    · -- the split occurs inside the left subtree
      have hzl : z ∈ leafSlots l0 := by
        refine occurs_leafSlots_subset _ _ hl z ?_
        rw [leafSlots, List.mem_append]
        exact Or.inr hz
      have hlml : leftmostSlot l ∈ leafSlots l0 := by
        refine occurs_leafSlots_subset _ _ hl _ ?_
        rw [leafSlots, List.mem_append]
        exact Or.inl (leftmostSlot_mem l)
      cases hs : l0.isSplit with
      | true =>
        rw [orderRun_split_splitLeft d0 q0 l0 rt0 S hs] at hzrun ⊢
        dsimp only at hzrun ⊢
        have hz2 : z ∉ (orderRun rt0 (orderAnchor l0 S).2).1 := fun hz2 =>
          hdisj hzl ((orderRun_spec rt0 _).2.1 z hz2).1
        have hzlm : z ≠ leftmostSlot l0 := by
          intro hze
          subst hze
          exact leftmostSlot_not_in_right l0 hndl d q l rt hl hz
        have hz1 : z ∉ (orderAnchor l0 S).1 := by
          rw [orderAnchor_eq]
          by_cases hlm0 : leftmostSlot l0 ∈ S
          · rw [if_pos hlm0]
            simp
          · rw [if_neg hlm0]
            simp only [List.mem_singleton]
            exact hzlm
        have hz3 : z ∈ (orderRun l0 (orderRun rt0 (orderAnchor l0 S).2).2).1 := by
          rcases List.mem_append.1 hzrun with h12 | h3
          · rcases List.mem_append.1 h12 with h1 | h2
            · exact absurd h1 hz1
            · exact absurd h2 hz2
          · exact h3
        rcases ihl _ hndl d q l rt hl z hz hz3 with hin | hbef
        · -- the leftmost leaf of l was already launched when phase 3 began
          rcases ((orderRun_spec rt0 (orderAnchor l0 S).2).2.2.1 _).1 hin with h | h
          · rcases ((orderAnchor_spec l0 S).2.2 _).1 h with hS | h1
            · exact Or.inl hS
            · right
              exact before_head3 h1 hz1
          · exfalso
            exact hdisj hlml ((orderRun_spec rt0 _).2.1 _ h).1
        · right
          exact before_third hbef hz1 hz2
      | false =>
        exfalso
        cases l0 with
        | leaf i c w e =>
          rw [occurs] at hl
          have := of_decide_eq_true hl
          cases this
        | split a b c d2 =>
          rw [LayoutNode.isSplit] at hs
          cases hs
    · -- the split occurs inside the right subtree
      have hzr : z ∈ leafSlots rt0 := by
        refine occurs_leafSlots_subset _ _ hr z ?_
        rw [leafSlots, List.mem_append]
        exact Or.inr hz
      have hlmr : leftmostSlot l ∈ leafSlots rt0 := by
        refine occurs_leafSlots_subset _ _ hr _ ?_
        rw [leafSlots, List.mem_append]
        exact Or.inl (leftmostSlot_mem l)
      cases hs : l0.isSplit with
      | true =>
        rw [orderRun_split_splitLeft d0 q0 l0 rt0 S hs] at hzrun ⊢
        dsimp only at hzrun ⊢
        have hz1 : z ∉ (orderAnchor l0 S).1 := fun h =>
          hdisj ((orderAnchor_spec l0 S).2.1 z h).1 hzr
        have hz3 : z ∉ (orderRun l0 (orderRun rt0 (orderAnchor l0 S).2).2).1 := fun h =>
          hdisj ((orderRun_spec l0 _).2.1 z h).1 hzr
        have hz2 : z ∈ (orderRun rt0 (orderAnchor l0 S).2).1 := by
          rcases List.mem_append.1 hzrun with h12 | h3
          · rcases List.mem_append.1 h12 with h1 | h2
            · exact absurd h1 hz1
            · exact h2
          · exact absurd h3 hz3
        rcases ihr _ hndr d q l rt hr z hz hz2 with hin | hbef
        · rcases ((orderAnchor_spec l0 S).2.2 _).1 hin with h | h
          · exact Or.inl h
          · exfalso
            exact hdisj ((orderAnchor_spec l0 S).2.1 _ h).1 hlmr
        · right
          exact Before.extend (Before.after_prefix hbef hz1)
      | false =>
        rw [orderRun_split_leafLeft d0 q0 l0 rt0 S hs] at hzrun ⊢
        dsimp only at hzrun ⊢
        have hz1 : z ∉ (orderRun l0 S).1 := fun h =>
          hdisj ((orderRun_spec l0 S).2.1 z h).1 hzr
        have hz2 : z ∈ (orderRun rt0 (orderRun l0 S).2).1 := by
          rcases List.mem_append.1 hzrun with h1 | h2
          · exact absurd h1 hz1
          · exact h2
        rcases ihr _ hndr d q l rt hr z hz hz2 with hin | hbef
        · rcases ((orderRun_spec l0 S).2.2.1 _).1 hin with h | h
          · exact Or.inl h
          · exfalso
            exact hdisj ((orderRun_spec l0 S).2.1 _ h).1 hlmr
        · right
          exact Before.after_prefix hbef hz1

theorem queryEvent_focusEvent {e : Event} (h : queryEvent e) : focusEvent e := by
  rcases h with rfl | rfl | rfl
  · exact Or.inl rfl
  · exact Or.inr (Or.inl rfl)
  · exact Or.inr (Or.inr (Or.inl rfl))

theorem execSlotsOf_cons_of_focusEvent {e : Event} (h : focusEvent e) (rest : List Event) :
    execSlotsOf (e :: rest) = execSlotsOf rest := by
  rcases h with rfl | rfl | rfl | rfl | ⟨a, rfl⟩ <;> rfl

theorem execSlotsOf_eq_nil_of_focusEvents {tr : List Event}
    (h : ∀ e ∈ tr, focusEvent e) : execSlotsOf tr = [] := by
  induction tr with
  | nil => rfl
  | cons e rest ih =>
    rw [execSlotsOf_cons_of_focusEvent (h e (by simp))]
    exact ih fun e' he' => h e' (by simp [he'])

theorem resolve_active_spec (env : Env) (w : Wm) :
    ∃ ctx tr, resolve_active_workspace env w = (.ok ctx, w, tr) ∧
      ∀ e ∈ tr, queryEvent e := by
  rw [resolve_active_workspace]
  cases w.active with
  | some focused =>
    refine ⟨_, _, rfl, ?_⟩
    intro e he
    fin_cases he <;> simp [queryEvent]
  | none =>
    try dsimp only
    split
    · refine ⟨_, _, rfl, ?_⟩
      intro e he
      fin_cases he <;> simp [queryEvent]
    · refine ⟨_, _, rfl, ?_⟩
      intro e he
      fin_cases he <;> simp [queryEvent]

theorem ensure_target_spec (env : Env) (target : WorkspaceTarget) (w : Wm) :
    ∃ res tr, ensure_target_active env target w = (res, w, tr) ∧
      ∀ e ∈ tr, focusEvent e := by
  rw [ensure_target_active]
  rcases resolve_active_spec env w with ⟨ctx, tr1, h1, hm1⟩
  rw [h1]
  dsimp only
  split
  · exact ⟨_, _, rfl, fun e he => queryEvent_focusEvent (hm1 e he)⟩
  · rw [wait_for_target_workspace]
    split
    · refine ⟨_, _, rfl, ?_⟩
      intro e he
      simp only [List.append_nil, List.mem_append, List.mem_singleton] at he
      rcases he with he | rfl
      · exact queryEvent_focusEvent (hm1 e he)
      · simp [focusEvent]
    · refine ⟨_, _, rfl, ?_⟩
      intro e he
      simp only [List.append_nil, List.mem_append, List.mem_singleton] at he
      rcases he with he | rfl
      · exact queryEvent_focusEvent (hm1 e he)
      · simp [focusEvent]

theorem ensure_focus_spec (env : Env) (wt : Option WorkspaceTarget) (w : Wm) :
    ∃ res tr, ensure_workspace_focus env wt w = (res, w, tr) ∧
      ∀ e ∈ tr, focusEvent e := by
  cases wt with
  | none => exact ⟨_, _, rfl, by simp⟩
  | some target =>
    rw [ensure_workspace_focus]
    rcases resolve_active_spec env w with ⟨ctx, tr1, h1, hm1⟩
    rw [h1]
    try dsimp only
    split
    · exact ⟨_, _, rfl, fun e he => queryEvent_focusEvent (hm1 e he)⟩
    · rcases ensure_target_spec env target w with ⟨res2, tr2, h2, hm2⟩
      rw [h2]
      cases res2 with
      | error e =>
        refine ⟨_, _, rfl, ?_⟩
        intro e' he'
        rcases List.mem_append.1 he' with he' | he'
        · exact queryEvent_focusEvent (hm1 e' he')
        · exact hm2 e' he'
      | ok ctx2 =>
        refine ⟨_, _, rfl, ?_⟩
        intro e' he'
        rcases List.mem_append.1 he' with he' | he'
        · exact queryEvent_focusEvent (hm1 e' he')
        · exact hm2 e' he'

theorem ensure_focus_none (env : Env) (w : Wm) :
    ensure_workspace_focus env none w = (.ok (), w, []) := rfl

theorem focus_window_spec (env : Env) (wt : Option WorkspaceTarget) (addr : Nat) (w : Wm) :
    ∃ res act tr,
      focus_window env wt addr w = (res, { w with active := act }, tr) ∧
      ∀ e ∈ tr, focusEvent e := by
  rw [focus_window]
  rcases ensure_focus_spec env wt { w with active := w.clients.find? fun c => c.address = addr }
    with ⟨res, tr, h, hm⟩
  rw [h]
  cases res with
  | error e =>
    refine ⟨_, _, _, rfl, ?_⟩
    intro e' he'
    simp only [List.mem_cons] at he'
    rcases he' with rfl | he'
    · simp [focusEvent]
    · exact hm e' he'
  | ok u =>
    refine ⟨_, _, _, rfl, ?_⟩
    intro e' he'
    simp only [List.mem_cons] at he'
    rcases he' with rfl | he'
    · simp [focusEvent]
    · rcases List.mem_append.1 he' with he' | he'
      · exact hm e' he'
      · simp only [List.mem_singleton] at he'
        subst he'
        simp [focusEvent]

theorem anchorStep_spec (ctx : WorkspaceContext) (r : Replay) (w : Wm) :
    ∃ anchor r2 tr, anchorStep ctx r w = (anchor, r2, w, tr) ∧
      r2.launched = r.launched ∧ r2.launchedSlots = r.launchedSlots ∧
      execSlotsOf tr = [] ∧ (∀ e ∈ tr, queryEvent e) := by
  rw [anchorStep, newly_added_address]
  dsimp only
  try simp only [Except.toOption, Option.join, Option.some_bind, id_eq]
  split
  · -- newly_added found an anchor
    refine ⟨_, _, _, rfl, ?_, ?_, rfl, ?_⟩
    · first
      | rfl
      | (dsimp only; split <;> rfl)
    · first
      | rfl
      | (dsimp only; split <;> rfl)
    · intro e he
      simp only [List.nil_append, List.append_nil, List.mem_singleton] at he
      subst he
      simp [queryEvent]
  · -- fall back to the active window
    rw [active_address_on_workspace]
    try dsimp only
    try simp only [Except.toOption, Option.join, Option.some_bind, id_eq]
    refine ⟨_, _, _, rfl, ?_, ?_, ?_, ?_⟩
    · first
      | rfl
      | (dsimp only; split <;> (first | rfl | (split <;> rfl)))
    · first
      | rfl
      | (dsimp only; split <;> (first | rfl | (split <;> rfl)))
    · rfl
    · intro e he
      simp at he
      rcases he with rfl | rfl <;> simp [queryEvent]

theorem runLeaf_bridge (env : Env) (wt : Option WorkspaceTarget) (ctx : WorkspaceContext)
    (ws : Workset) (base : Nat) (slotId : Nat) (cmd : Str) (cwdO : Option Str)
    (envO : List (Str × Str)) (pending : Option ℚ) (r : Replay) (w : Wm)
    {a : Option Nat} {p' : Option ℚ} {r' : Replay} {w' : Wm} {tr : List Event}
    (h : runLeaf env wt ctx ws base slotId cmd cwdO envO pending r w =
      (.ok a, p', r', w', tr)) :
    execSlotsOf tr = (orderRun (.leaf slotId cmd cwdO envO) r.launchedSlots).1 ∧
      r'.launchedSlots = (orderRun (.leaf slotId cmd cwdO envO) r.launchedSlots).2 := by
  rw [runLeaf.eq_def] at h
  rw [orderRun_leaf]
  by_cases hmem : slotId ∈ r.launchedSlots
  · rw [if_pos hmem] at h
    rw [if_pos hmem]
    rw [active_address_on_workspace] at h
    dsimp only at h
    simp only [Prod.mk.injEq] at h
    rcases h with ⟨h1, h2, h3, h4, h5⟩
    subst h3 h5
    exact ⟨rfl, rfl⟩
  · rw [if_neg hmem] at h
    rw [if_neg hmem]
    dsimp only at h
    rcases ensure_focus_spec env wt w with ⟨res1, t1, hE, hm1⟩
    rw [hE] at h
    cases res1 with
    | error e => simp at h
    | ok u =>
      simp only [wait_for_clients_on_workspace] at h
      split at h
      · -- the appear-wait timed out: contradicts the ok result
        simp at h
      · -- wait succeeded
        rename_i uu w2 t2 heq
        rcases anchorStep_spec ctx
          { r with launchedSlots := r.launchedSlots ++ [slotId],
                   launched := r.launched + 1 } w2 with
          ⟨anchor, r2, t4, hA, hA1, hA2, hA3, hA4⟩
        rw [hA] at h
        simp only [Prod.mk.injEq] at h
        rcases h with ⟨h1, h2, h3, h4, h5⟩
        subst h3 h5
        have ht1 : execSlotsOf t1 = [] := execSlotsOf_eq_nil_of_focusEvents hm1
        have ht2 : t2 = [.queryClients] := by
          rcases ite_eq_iff.1 heq with ⟨_, hh⟩ | ⟨_, hh⟩
          · simp only [Prod.mk.injEq] at hh
            exact hh.2.2.symm
          · simp at hh
        constructor
        · subst ht2
          simp only [execSlotsOf_append, ht1, hA3, List.nil_append, List.append_nil]
          cases pending <;> rfl
        · rw [hA2]

theorem runLayoutInner_leaf_eq (env : Env) (wt : Option WorkspaceTarget)
    (ctx : WorkspaceContext) (ws : Workset) (base : Nat) (i : Nat) (c : Str)
    (cw : Option Str) (e : List (Str × Str)) (pending : Option ℚ) (r : Replay) (w : Wm) :
    runLayoutInner env wt ctx ws base (.leaf i c cw e) pending r w =
      runLeaf env wt ctx ws base i c cw e pending r w := by
  rw [runLayoutInner]

theorem runLeftAnchor_leaf_eq (env : Env) (wt : Option WorkspaceTarget)
    (ctx : WorkspaceContext) (ws : Workset) (base : Nat) (i : Nat) (c : Str)
    (cw : Option Str) (e : List (Str × Str)) (pending : Option ℚ) (r : Replay) (w : Wm) :
    runLeftAnchor env wt ctx ws base (.leaf i c cw e) pending r w =
      runLayoutInner env wt ctx ws base (.leaf i c cw e) pending r w := by
  rw [runLeftAnchor, runLayoutInner]

theorem runLeftAnchor_split_eq (env : Env) (wt : Option WorkspaceTarget)
    (ctx : WorkspaceContext) (ws : Workset) (base : Nat) (d : SplitDirection) (q : ℚ)
    (l rt : LayoutNode) (pending : Option ℚ) (r : Replay) (w : Wm) :
    runLeftAnchor env wt ctx ws base (.split d q l rt) pending r w =
      runLeftAnchor env wt ctx ws base l pending r w := by
  rw [runLeftAnchor]

theorem runLeftAnchor_bridge (env : Env) (wt : Option WorkspaceTarget)
    (ctx : WorkspaceContext) (ws : Workset) (base : Nat) (t : LayoutNode) :
    ∀ (pending : Option ℚ) (r : Replay) (w : Wm) {a : Option Nat} {p' : Option ℚ}
      {r' : Replay} {w' : Wm} {tr : List Event},
      runLeftAnchor env wt ctx ws base t pending r w = (.ok a, p', r', w', tr) →
      execSlotsOf tr = (orderAnchor t r.launchedSlots).1 ∧
        r'.launchedSlots = (orderAnchor t r.launchedSlots).2 := by
  induction t with
  | leaf i c cw e =>
    intro pending r w a p' r' w' tr h
    rw [runLeftAnchor_leaf_eq, runLayoutInner_leaf_eq] at h
    rw [orderAnchor]
    exact runLeaf_bridge env wt ctx ws base i c cw e pending r w h
  | split d q l rt ihl ihr =>
    intro pending r w a p' r' w' tr h
    rw [runLeftAnchor_split_eq] at h
    rw [orderAnchor]
    exact ihl pending r w h

theorem runLayoutInner_bridge (env : Env) (wt : Option WorkspaceTarget)
    (ctx : WorkspaceContext) (ws : Workset) (base : Nat) (t : LayoutNode) :
    ∀ (pending : Option ℚ) (r : Replay) (w : Wm) {a : Option Nat} {p' : Option ℚ}
      {r' : Replay} {w' : Wm} {tr : List Event},
      runLayoutInner env wt ctx ws base t pending r w = (.ok a, p', r', w', tr) →
      execSlotsOf tr = (orderRun t r.launchedSlots).1 ∧
        r'.launchedSlots = (orderRun t r.launchedSlots).2 := by
  induction t with
  | leaf i c cw e =>
    intro pending r w a p' r' w' tr h
    rw [runLayoutInner_leaf_eq] at h
    have := runLeaf_bridge env wt ctx ws base i c cw e pending r w h
    rw [orderRun_leaf] at this ⊢
    exact this
  | split d q l rt ihl ihr =>
    intro pending r w a p' r' w' tr h
    rw [runLayoutInner] at h
    dsimp only at h
    cases hs : l.isSplit with
    | true =>
      rw [hs] at h
      simp only [if_true, eq_self_iff_true] at h
      rcases hPass : runLeftAnchor env wt ctx ws base l pending r w with
        ⟨res1, p1, r1, w1, t1⟩
      rw [hPass] at h
      cases res1 with
      | error e => simp at h
      | ok leftAnchor =>
        dsimp only at h
        have hFocus : ∃ res2 w2 t2, (match leftAnchor with
            | some addr => focus_window env wt addr w1
            | none => ensure_workspace_focus env wt w1) = (res2, w2, t2) ∧
            ∀ e ∈ t2, focusEvent e := by
          cases leftAnchor with
          | some addr =>
            rcases focus_window_spec env wt addr w1 with ⟨res2, act, t2, hF, hm⟩
            exact ⟨_, _, _, hF, hm⟩
          | none =>
            rcases ensure_focus_spec env wt w1 with ⟨res2, t2, hF, hm⟩
            exact ⟨_, _, _, hF, hm⟩
        rcases hFocus with ⟨res2, w2, t2, hF, hm2⟩
        rw [hF] at h
        cases res2 with
        | error e => simp at h
        | ok u =>
          dsimp only at h
          rcases hR : runLayoutInner env wt ctx ws base rt (some (to_hypr_split_ratio q)) r1 w2
            with ⟨res3, p3, r3, w3, t3⟩
          rw [hR] at h
          cases res3 with
          | error e => simp at h
          | ok rightAnchor =>
            dsimp only at h
            simp only [wait_for_clients_on_workspace] at h
            split at h
            · simp at h
            · rename_i uw w4 t4 heq4
              have ht4 : t4 = [.queryClients] := by
                rcases ite_eq_iff.1 heq4 with ⟨_, hh⟩ | ⟨_, hh⟩
                · simp only [Prod.mk.injEq] at hh
                  exact hh.2.2.symm
                · simp at hh
              have hFocus2 : ∃ res5 w5 t5, (match leftAnchor with
                  | some addr => focus_window env wt addr w4
                  | none => ensure_workspace_focus env wt w4) = (res5, w5, t5) ∧
                  ∀ e ∈ t5, focusEvent e := by
                cases leftAnchor with
                | some addr =>
                  rcases focus_window_spec env wt addr w4 with ⟨res5, act, t5, hF2, hm⟩
                  exact ⟨_, _, _, hF2, hm⟩
                | none =>
                  rcases ensure_focus_spec env wt w4 with ⟨res5, t5, hF2, hm⟩
                  exact ⟨_, _, _, hF2, hm⟩
              rcases hFocus2 with ⟨res5, w5, t5, hF2, hm5⟩
              rw [hF2] at h
              cases res5 with
              | error e => simp at h
              | ok u5 =>
                dsimp only at h
                rcases hL2 : runLayoutInner env wt ctx ws base l p1 r3 w5 with
                  ⟨res6, p6, r6, w6, t6⟩
                rw [hL2] at h
                cases res6 with
                | error e => simp at h
                | ok remainingLeft =>
                  simp only [Prod.mk.injEq] at h
                  rcases h with ⟨h1, h2, h3, h4, h5⟩
                  subst h3 h5
                  obtain ⟨e1, s1⟩ := runLeftAnchor_bridge env wt ctx ws base l pending r w hPass
                  obtain ⟨e3, s3⟩ := ihr _ _ _ hR
                  obtain ⟨e6, s6⟩ := ihl _ _ _ hL2
                  rw [s1] at e3 s3
                  rw [s3] at e6 s6
                  have ht2 : execSlotsOf t2 = [] := execSlotsOf_eq_nil_of_focusEvents hm2
                  have ht5 : execSlotsOf t5 = [] := execSlotsOf_eq_nil_of_focusEvents hm5
                  have ht4e : execSlotsOf t4 = [] := by
                    rw [ht4]
                    rfl
                  rw [orderRun_split_splitLeft d q l rt _ hs]
                  try dsimp only
                  constructor
                  · simp only [execSlotsOf_append, e1, ht2, e3, ht4e, ht5, e6,
                      List.append_nil, List.nil_append]
                  · rw [s6]
    | false =>
      rw [hs] at h
      simp only [Bool.false_eq_true, if_false] at h
      rcases hPass : runLayoutInner env wt ctx ws base l pending r w with
        ⟨res1, p1, r1, w1, t1⟩
      rw [hPass] at h
      cases res1 with
      | error e => simp at h
      | ok leftAnchor =>
        dsimp only at h
        have hFocus : ∃ res2 w2 t2, (match leftAnchor with
            | some addr => focus_window env wt addr w1
            | none => ensure_workspace_focus env wt w1) = (res2, w2, t2) ∧
            ∀ e ∈ t2, focusEvent e := by
          cases leftAnchor with
          | some addr =>
            rcases focus_window_spec env wt addr w1 with ⟨res2, act, t2, hF, hm⟩
            exact ⟨_, _, _, hF, hm⟩
          | none =>
            rcases ensure_focus_spec env wt w1 with ⟨res2, t2, hF, hm⟩
            exact ⟨_, _, _, hF, hm⟩
        rcases hFocus with ⟨res2, w2, t2, hF, hm2⟩
        rw [hF] at h
        cases res2 with
        | error e => simp at h
        | ok u =>
          dsimp only at h
          rcases hR : runLayoutInner env wt ctx ws base rt (some (to_hypr_split_ratio q)) r1 w2
            with ⟨res3, p3, r3, w3, t3⟩
          rw [hR] at h
          cases res3 with
          | error e => simp at h
          | ok rightAnchor =>
            dsimp only at h
            simp only [wait_for_clients_on_workspace] at h
            split at h
            · simp at h
            · rename_i uw w4 t4 heq4
              have ht4 : t4 = [.queryClients] := by
                rcases ite_eq_iff.1 heq4 with ⟨_, hh⟩ | ⟨_, hh⟩
                · simp only [Prod.mk.injEq] at hh
                  exact hh.2.2.symm
                · simp at hh
              simp only [Prod.mk.injEq] at h
              rcases h with ⟨h1, h2, h3, h4, h5⟩
              subst h3 h5
              obtain ⟨e1, s1⟩ := ihl _ _ _ hPass
              obtain ⟨e3, s3⟩ := ihr _ _ _ hR
              rw [s1] at e3 s3
              have ht2 : execSlotsOf t2 = [] := execSlotsOf_eq_nil_of_focusEvents hm2
              have ht4e : execSlotsOf t4 = [] := by
                rw [ht4]
                rfl
              rw [orderRun_split_leafLeft d q l rt _ hs]
              try dsimp only
              constructor
              · simp only [execSlotsOf_append, e1, ht2, e3, ht4e,
                  List.append_nil, List.nil_append]
              · rw [s3]

/-- Successful `run_layout` dispatches exactly the pure launch order from
the empty launched set. -/
theorem run_layout_bridge (env : Env) (t : LayoutNode) (ws : Workset)
    (ctx : WorkspaceContext) (wt : Option WorkspaceTarget) (w : Wm)
    {w' : Wm} {tr : List Event}
    (h : run_layout env t ws ctx wt w = (.ok (), w', tr)) :
    execSlotsOf tr = (orderRun t []).1 := by
  rw [run_layout] at h
  rcases hI : runLayoutInner env wt ctx ws
      ((w.clients.filter fun c => ctx.matches c.workspace).foldl
        (fun s c => if c.address ∈ s then s else s ++ [c.address]) []).length t none
      { launched := 0,
        known :=
          (w.clients.filter fun c => ctx.matches c.workspace).foldl
            (fun s c => if c.address ∈ s then s else s ++ [c.address]) [],
        launchedSlots := [] } w with ⟨res1, p1, r1, w1, t1⟩
  rw [hI] at h
  cases res1 with
  | error e => simp at h
  | ok a =>
    dsimp only at h
    simp only [Prod.mk.injEq] at h
    rcases h with ⟨h1, h2, h3⟩
    subst h3
    rw [execSlotsOf, List.filterMap_cons]
    try dsimp only
    exact (runLayoutInner_bridge env wt ctx ws _ t none _ w hI).1

/-- C1: for a successful layout replay over a tree with unique slot ids,
there is exactly one exec dispatch per leaf. -/
theorem layout_replay_one_exec_per_leaf (env : Env) (t : LayoutNode) (ws : Workset)
    (ctx : WorkspaceContext) (wt : Option WorkspaceTarget) (w : Wm)
    {w' : Wm} {tr : List Event}
    (hnd : (leafSlots t).Nodup)
    (hok : run_layout env t ws ctx wt w = (.ok (), w', tr)) :
    (execSlotsOf tr).Nodup ∧
      (execSlotsOf tr).length = count_slots t ∧
      ∀ s, s ∈ execSlotsOf tr ↔ s ∈ leafSlots t := by
  have hb := run_layout_bridge env t ws ctx wt w hok
  rcases orderRun_spec t [] with ⟨hn, hm, hsiff, hcov⟩
  have hiff : ∀ s, s ∈ (orderRun t []).1 ↔ s ∈ leafSlots t := by
    intro s
    constructor
    · intro hs
      exact (hm s hs).1
    · intro hs
      rcases (hsiff s).1 (hcov s hs) with h | h
      · simp at h
      · exact h
  have hlen : (orderRun t []).1.length = (leafSlots t).length := by
    apply Nat.le_antisymm
    · exact (hn.subperm fun x hx => (hiff x).1 hx).length_le
    · exact (hnd.subperm fun x hx => (hiff x).2 hx).length_le
  rw [hb]
  refine ⟨hn, ?_, hiff⟩
  rw [hlen, count_slots_eq_length_leafSlots]

theorem layout_replay_one_exec_per_leaf_witness :
    (leafSlots cexTree).Nodup ∧
      (execSlotsOf (run_layout cexEnv cexTree cexWorkset cexCtx none cexWm).2.2).length =
        count_slots cexTree :=
  ⟨by decide,
   (@layout_replay_one_exec_per_leaf cexEnv cexTree cexWorkset cexCtx none cexWm
      (run_layout cexEnv cexTree cexWorkset cexCtx none cexWm).2.1
      (run_layout cexEnv cexTree cexWorkset cexCtx none cexWm).2.2
      (by decide) (by rfl)).2.1⟩

theorem not_before_132 : ¬ Before [1, 3, 2] 2 3 := by
  rintro ⟨p, qq, hpq, h2, h3⟩
  rcases p with _ | ⟨a1, _ | ⟨a2, _ | ⟨a3, p⟩⟩⟩
  · simp at h2
  · simp only [List.cons_append, List.nil_append, List.cons.injEq] at hpq
    rcases hpq with ⟨rfl, rfl⟩
    simp at h2
  · simp only [List.cons_append, List.nil_append, List.cons.injEq] at hpq
    rcases hpq with ⟨rfl, rfl, rfl⟩
    simp at h3
  · simp only [List.cons_append, List.nil_append, List.cons.injEq] at hpq
    rcases hpq with ⟨rfl, rfl, rfl, hrest⟩
    simp at h3

/-- C2 counterexample: on the tree `Split(Split(Leaf 1, Leaf 2), Leaf 3)`
the replay succeeds but dispatches in the order `[1, 3, 2]`: leaf 2 of the
root's left subtree is exec-dispatched only after leaf 3 of its right
subtree, because the first pass over a Split left child launches only its
leftmost leaf and the once-more replay launches the rest.  This refutes
"every leaf of its left subtree is exec-dispatched before any leaf of its
right subtree". -/
theorem layout_replay_left_before_right_counterexample :
    cexTree = .split .horizontal 1 cexLeftTree cexRightTree ∧
    (leafSlots cexTree).Nodup ∧
    (run_layout cexEnv cexTree cexWorkset cexCtx none cexWm).1 = .ok () ∧
    2 ∈ leafSlots cexLeftTree ∧
    3 ∈ leafSlots cexRightTree ∧
    execSlotsOf (run_layout cexEnv cexTree cexWorkset cexCtx none cexWm).2.2 = [1, 3, 2] ∧
    ¬ Before (execSlotsOf (run_layout cexEnv cexTree cexWorkset cexCtx none cexWm).2.2) 2 3 := by
  refine ⟨rfl, by decide, by rfl, by decide, by decide, by rfl, ?_⟩
  rw [show execSlotsOf (run_layout cexEnv cexTree cexWorkset cexCtx none cexWm).2.2 =
    [1, 3, 2] from by rfl]
  exact not_before_132

/-- C2 (amended): for every Split node occurring in a duplicate-free tree,
a successful replay exec-dispatches the leftmost leaf of its left subtree
before any leaf of its right subtree; when the left subtree is itself a
Split, its remaining leaves are dispatched only by the once-more replay
after the right side completes (which launches them for the first time
rather than relaunching). -/
theorem layout_replay_leftmost_of_left_before_right (env : Env) (t : LayoutNode)
    (ws : Workset) (ctx : WorkspaceContext) (wt : Option WorkspaceTarget) (w : Wm)
    {w' : Wm} {tr : List Event}
    (hnd : (leafSlots t).Nodup)
    (hok : run_layout env t ws ctx wt w = (.ok (), w', tr)) :
    ∀ d q l rt, occurs (.split d q l rt) t = true →
      ∀ z ∈ leafSlots rt,
        z ∈ execSlotsOf tr ∧ Before (execSlotsOf tr) (leftmostSlot l) z := by
  have hb := run_layout_bridge env t ws ctx wt w hok
  intro d q l rt hocc z hz
  have hzt : z ∈ leafSlots t := by
    refine occurs_leafSlots_subset _ _ hocc z ?_
    rw [leafSlots, List.mem_append]
    exact Or.inr hz
  rcases orderRun_spec t [] with ⟨hn, hm, hsiff, hcov⟩
  have hzrun : z ∈ (orderRun t []).1 := by
    rcases (hsiff z).1 (hcov z hzt) with h | h
    · simp at h
    · exact h
  rw [hb]
  refine ⟨hzrun, ?_⟩
  rcases orderRun_ordered t [] hnd d q l rt hocc z hz hzrun with h | h
  · simp at h
  · exact h

theorem layout_replay_leftmost_of_left_before_right_witness :
    (leafSlots cexTree).Nodup ∧
      occurs (.split .horizontal 1 cexLeftTree cexRightTree) cexTree = true ∧
      3 ∈ leafSlots cexRightTree ∧
      Before (execSlotsOf (run_layout cexEnv cexTree cexWorkset cexCtx none cexWm).2.2)
        (leftmostSlot cexLeftTree) 3 :=
  ⟨by decide, by decide, by decide,
   (@layout_replay_leftmost_of_left_before_right cexEnv cexTree cexWorkset cexCtx none cexWm
      (run_layout cexEnv cexTree cexWorkset cexCtx none cexWm).2.1
      (run_layout cexEnv cexTree cexWorkset cexCtx none cexWm).2.2
      (by decide) (by rfl) .horizontal 1 cexLeftTree cexRightTree (by decide) 3
      (by decide)).2⟩

/-- C7: the user-ratio conversion `f(r) = clamp(2r/(r+1), 0.1, 1.9)` is
monotone non-decreasing for `r > 0`, satisfies `f(1) = 1` exactly, stays in
`[0.1, 1.9]` for every input, and at `r = 1.2` equals the unclamped value
`2·1.2/2.2 = 12/11`, which lies strictly inside the clamp bounds. -/
theorem to_hypr_split_ratio_spec :
    (∀ r s : ℚ, 0 < r → r ≤ s → to_hypr_split_ratio r ≤ to_hypr_split_ratio s) ∧
    to_hypr_split_ratio 1 = 1 ∧
    (∀ r : ℚ, HYPR_SPLIT_MIN ≤ to_hypr_split_ratio r ∧
      to_hypr_split_ratio r ≤ HYPR_SPLIT_MAX) ∧
    to_hypr_split_ratio (12 / 10) = 2 * (12 / 10) / (12 / 10 + 1) ∧
    HYPR_SPLIT_MIN < 2 * (12 / 10 : ℚ) / (12 / 10 + 1) ∧
    2 * (12 / 10 : ℚ) / (12 / 10 + 1) < HYPR_SPLIT_MAX := by
  refine ⟨?_, by norm_num [to_hypr_split_ratio, HYPR_SPLIT_MIN, HYPR_SPLIT_MAX], ?_, ?_, ?_, ?_⟩
  · intro r s hr hrs
    unfold to_hypr_split_ratio
    have h1 : max r (1 / 100) ≤ max s (1 / 100) := max_le_max hrs le_rfl
    have ha : (0 : ℚ) < max r (1 / 100) := lt_of_lt_of_le (by norm_num) (le_max_right _ _)
    have hb : (0 : ℚ) < max s (1 / 100) := lt_of_lt_of_le ha h1
    have key : 2 * max r (1 / 100) / (max r (1 / 100) + 1) ≤
        2 * max s (1 / 100) / (max s (1 / 100) + 1) := by
      rw [div_le_div_iff₀ (by linarith) (by linarith)]
      nlinarith [h1]
    exact min_le_min (max_le_max key le_rfl) le_rfl
  · intro r
    constructor
    · refine le_min (le_max_right _ _) ?_
      norm_num [HYPR_SPLIT_MIN, HYPR_SPLIT_MAX]
    · exact min_le_right _ _
  · norm_num [to_hypr_split_ratio, HYPR_SPLIT_MIN, HYPR_SPLIT_MAX]
  · norm_num [HYPR_SPLIT_MIN]
  · norm_num [HYPR_SPLIT_MAX]

theorem to_hypr_split_ratio_spec_witness :
    (0 : ℚ) < 1 ∧ (1 : ℚ) ≤ 2 ∧ to_hypr_split_ratio 1 ≤ to_hypr_split_ratio 2 :=
  ⟨by norm_num, by norm_num, to_hypr_split_ratio_spec.1 1 2 (by norm_num) (by norm_num)⟩

/-- C9: with cwd `/tmp/work` and the env layers `{FOO=bar}` then
`{BAZ=qux}`, the generated exec string is exactly
`cd '/tmp/work' && FOO='bar' BAZ='qux' ` followed by the base command;
cwd and env values pass through `shell_escape`'s single-quoting. -/
theorem build_exec_command_cwd_env_layers (c : Str) :
    build_exec_command c (some "/tmp/work".toList)
        [[("FOO".toList, "bar".toList)], [("BAZ".toList, "qux".toList)]] =
      "cd '/tmp/work' && FOO='bar' BAZ='qux' ".toList ++ c ∧
    shell_escape "/tmp/work".toList = "'/tmp/work'".toList ∧
    shell_escape "a'b".toList = "'a'\"'\"'b'".toList := by
  refine ⟨rfl, rfl, rfl⟩

theorem rustStripPrefix_append (p s : Str) : rustStripPrefix p (p ++ s) = some s := by
  unfold rustStripPrefix
  rw [if_pos (List.isPrefixOf_iff_prefix.2 (List.prefix_append _ _))]
  rw [List.drop_left]

theorem rustStripPrefix_eq_some {p s n : Str} (h : rustStripPrefix p s = some n) :
    s = p ++ n := by
  unfold rustStripPrefix at h
  split at h
  · rename_i hp
    rcases List.isPrefixOf_iff_prefix.1 hp with ⟨t, rfl⟩
    rw [List.drop_left] at h
    cases h
    rfl
  · cases h

theorem parseI32_first {c : Char} {rest : Str} {i : Int}
    (h : parseI32 (c :: rest) = some i) :
    c = '-' ∨ c = '+' ∨ c.isDigit = true := by
  rw [parseI32] at h
  by_cases h1 : c = '-'
  · exact Or.inl h1
  by_cases h2 : c = '+'
  · exact Or.inr (Or.inl h2)
  rw [if_neg h1, if_neg h2] at h
  dsimp only at h
  rw [if_neg (by simp)] at h
  split at h
  · rename_i hall
    exact Or.inr (Or.inr (List.all_eq_true.1 hall c (by simp)))
  · cases h

theorem digit_not_upper (c : Char) (h : c.isDigit = true) : ¬ ('A' ≤ c ∧ c ≤ 'Z') := by
  simp [Char.isDigit] at h
  rintro ⟨h1, h2⟩
  change 'A'.val ≤ c.val at h1
  exact absurd (UInt32.le_trans h1 h.2) (by decide)

theorem asciiLower_digit (c : Char) (h : c.isDigit = true) : asciiLower c = c := by
  rw [asciiLower, if_neg (digit_not_upper c h)]

theorem parseI32_head_shapes {c : Char} {rest : Str} {i : Int}
    (h : parseI32 (c :: rest) = some i) :
    rustStripPrefix "special:".toList (c :: rest) = none ∧
      eqIgnoreAsciiCase (c :: rest) "special".toList = false ∧
      rustStripPrefix "name:".toList (c :: rest) = none := by
  have hc := parseI32_first h
  have hcs : c ≠ 's' := by
    rcases hc with rfl | rfl | hd
    · decide
    · decide
    · rintro rfl
      exact absurd hd (by decide)
  have hcn : c ≠ 'n' := by
    rcases hc with rfl | rfl | hd
    · decide
    · decide
    · rintro rfl
      exact absurd hd (by decide)
  refine ⟨?_, ?_, ?_⟩
  · cases hsp : rustStripPrefix "special:".toList (c :: rest) with
    | none => rfl
    | some n =>
      exfalso
      have := rustStripPrefix_eq_some hsp
      rw [show "special:".toList = 's' :: "pecial:".toList from rfl,
        List.cons_append, List.cons.injEq] at this
      exact hcs this.1
  · cases hig : eqIgnoreAsciiCase (c :: rest) "special".toList with
    | false => rfl
    | true =>
      exfalso
      rw [eqIgnoreAsciiCase] at hig
      have hmap := of_decide_eq_true hig
      rw [asciiLowerStr, List.map_cons,
        show asciiLowerStr "special".toList = 's' :: "pecial".toList from rfl,
        List.cons.injEq] at hmap
      have hlc : asciiLower c = 's' := hmap.1
      rcases hc with rfl | rfl | hd
      · exact absurd hlc (by decide)
      · exact absurd hlc (by decide)
      · rw [asciiLower_digit c hd] at hlc
        exact hcs hlc
  · cases hsp : rustStripPrefix "name:".toList (c :: rest) with
    | none => rfl
    | some n =>
      exfalso
      have := rustStripPrefix_eq_some hsp
      rw [show "name:".toList = 'n' :: "ame:".toList from rfl,
        List.cons_append, List.cons.injEq] at this
      exact hcn this.1

/-- C8 (amended): the workspace-target parser is total and, on the trimmed
input, maps `special:<n>` to a named special target, anything equal to
`special` up to ASCII case to the unnamed special target, `name:<n>` to a
name target, a bare `i32` integer to a numeric-id target, and any other
(non-numeric, non-special, non-`name:`-prefixed) string to a name target. -/
theorem workspace_target_parser_covers_modes (raw : Str) :
    (∀ n, rustTrim raw = "special:".toList ++ n →
      WorkspaceTarget.from_raw raw = { kind := .special (some n) }) ∧
    (rustStripPrefix "special:".toList (rustTrim raw) = none →
      eqIgnoreAsciiCase (rustTrim raw) "special".toList = true →
      WorkspaceTarget.from_raw raw = { kind := .special none }) ∧
    (∀ n, rustTrim raw = "name:".toList ++ n →
      WorkspaceTarget.from_raw raw = { kind := .name n }) ∧
    (∀ i, parseI32 (rustTrim raw) = some i →
      WorkspaceTarget.from_raw raw = { kind := .id i }) ∧
    (parseI32 (rustTrim raw) = none →
      rustStripPrefix "special:".toList (rustTrim raw) = none →
      eqIgnoreAsciiCase (rustTrim raw) "special".toList = false →
      rustStripPrefix "name:".toList (rustTrim raw) = none →
      WorkspaceTarget.from_raw raw = { kind := .name (rustTrim raw) }) := by
  refine ⟨?_, ?_, ?_, ?_, ?_⟩
  · intro n hn
    rw [WorkspaceTarget.from_raw, hn, rustStripPrefix_append]
  · intro h1 h2
    rw [WorkspaceTarget.from_raw, h1]
    try dsimp only
    rw [h2]
    rfl
  · intro n hn
    rw [WorkspaceTarget.from_raw, hn]
    rw [show rustStripPrefix "special:".toList ("name:".toList ++ n) = none from rfl]
    try dsimp only
    rw [show eqIgnoreAsciiCase ("name:".toList ++ n) "special".toList = false from rfl]
    try dsimp only
    rw [rustStripPrefix_append]
    rfl
  · intro i hi
    rcases hT : rustTrim raw with _ | ⟨c, rest⟩
    · rw [hT] at hi
      cases hi
    · rw [hT] at hi
      rcases parseI32_head_shapes hi with ⟨hs1, hs2, hs3⟩
      rw [WorkspaceTarget.from_raw, hT, hs1]
      try dsimp only
      rw [hs2]
      try dsimp only
      rw [hs3]
      try dsimp only
      rw [hi]
      rfl
  · intro hp h1 h2 h3
    rw [WorkspaceTarget.from_raw, h1]
    try dsimp only
    rw [h2]
    try dsimp only
    rw [h3]
    try dsimp only
    rw [hp]
    rfl

theorem workspace_target_parser_covers_modes_witness :
    rustTrim "  special:foo ".toList = "special:".toList ++ "foo".toList ∧
      WorkspaceTarget.from_raw "  special:foo ".toList =
        { kind := .special (some "foo".toList) } ∧
      parseI32 (rustTrim " 42 ".toList) = some 42 ∧
      WorkspaceTarget.from_raw " 42 ".toList = { kind := .id 42 } :=
  ⟨by decide, (workspace_target_parser_covers_modes "  special:foo ".toList).1
      "foo".toList (by decide),
   by decide, (workspace_target_parser_covers_modes " 42 ".toList).2.2.2.1 42 (by decide)⟩

/-- C8 counterexample: `"SPECIAL"` is a bare (prefix-free) non-numeric
string, yet the parser maps it to the special-workspace target, not a name
target: the `special` form is matched ASCII-case-insensitively
(`eq_ignore_ascii_case`). -/
theorem workspace_target_parser_bare_non_numeric_counterexample :
    (parseI32 (rustTrim "SPECIAL".toList)).isNone = true ∧
      rustStripPrefix "name:".toList (rustTrim "SPECIAL".toList) = none ∧
      rustStripPrefix "special:".toList (rustTrim "SPECIAL".toList) = none ∧
      WorkspaceTarget.from_raw "SPECIAL".toList = { kind := .special none } ∧
      WorkspaceTarget.from_raw "SPECIAL".toList ≠
        { kind := .name (rustTrim "SPECIAL".toList) } := by
  refine ⟨by decide, by decide, by decide, by decide, by decide⟩

theorem ancestorLoop_superset (proc : Int → Option Str) :
    ∀ (fuel : Nat) (pids : List Int) (cur : Int), ∀ x ∈ pids,
      x ∈ ancestorLoop proc fuel pids cur := by
  intro fuel
  induction fuel with
  | zero =>
    intro pids cur x hx
    rw [ancestorLoop]
    split
    · exact hx
    · dsimp only
      split
      · simp [hx]
      · split
        · simp [hx]
        · split
          · simp [hx]
          · simp [hx]
  | succ f ih =>
    intro pids cur x hx
    rw [ancestorLoop]
    split
    · exact hx
    · dsimp only
      split
      · simp [hx]
      · split
        · simp [hx]
        · split
          · simp [hx]
          · exact ih _ _ x (by simp [hx])

theorem mem_ancestorLoop_self (proc : Int → Option Str) (fuel : Nat) (pids : List Int)
    (cur : Int) (h : cur ∉ pids) : cur ∈ ancestorLoop proc fuel pids cur := by
  rw [ancestorLoop]
  rw [if_neg h]
  dsimp only
  split
  · simp
  · split
    · simp
    · split
      · simp
      · cases fuel with
        | zero => simp
        | succ f => exact ancestorLoop_superset proc f _ _ cur (by simp)

theorem ancestorLoop_step (proc : Int → Option Str) (f : Nat) (pids : List Int)
    (cur ppid : Int) (status : Str)
    (h1 : cur ∉ pids) (h2 : proc cur = some status) (h3 : parsePPid status = some ppid)
    (h4 : ¬ ppid ≤ 1) :
    ancestorLoop proc (f + 1) pids cur = ancestorLoop proc f (pids ++ [cur]) ppid := by
  rw [ancestorLoop]
  rw [if_neg h1]
  dsimp only
  rw [h2]
  dsimp only
  rw [h3]
  dsimp only
  rw [if_neg h4]

theorem pidChain_none_mono (proc : Int → Option Str) (selfPid : Int) (j : Nat)
    (h : pidChain proc selfPid j = none) :
    ∀ d, pidChain proc selfPid (j + d) = none := by
  intro d
  induction d with
  | zero => exact h
  | succ d ih =>
    rw [show j + (d + 1) = (j + d) + 1 from rfl, pidChain, ih]

theorem chain_mem_collect_ancestor_pids (proc : Int → Option Str) (selfPid : Int)
    (k : Nat) (p : Int) (hk : k ≤ 32)
    (hchain : pidChain proc selfPid k = some p)
    (hinj : ∀ i j, i ≤ k → j ≤ k →
      pidChain proc selfPid i = pidChain proc selfPid j → i = j) :
    p ∈ collect_ancestor_pids proc selfPid := by
  have main : ∀ d j c, j + d = k → pidChain proc selfPid j = some c →
      p ∈ ancestorLoop proc (32 - j)
        ((List.range j).filterMap (pidChain proc selfPid)) c := by
    intro d
    induction d with
    | zero =>
      intro j c hjk hc
      have hj : j = k := by omega
      subst hj
      rw [hc] at hchain
      cases hchain
      refine mem_ancestorLoop_self proc _ _ _ ?_
      intro hmem
      rcases List.mem_filterMap.1 hmem with ⟨i, hi, hic⟩
      rw [List.mem_range] at hi
      have := hinj i j (le_of_lt hi) le_rfl (by rw [hic, hc])
      omega
    | succ d ih =>
      intro j c hjk hc
      have hj1 : pidChain proc selfPid (j + 1) ≠ none := by
        intro hnone
        have := pidChain_none_mono proc selfPid (j + 1) hnone d
        rw [show j + 1 + d = k from by omega] at this
        rw [this] at hchain
        cases hchain
      rcases hq : pidChain proc selfPid (j + 1) with _ | q
      · exact absurd hq hj1
      have hstep := hq
      rw [pidChain, hc] at hstep
      dsimp only at hstep
      rcases hproc : proc c with _ | status
      · rw [hproc] at hstep
        cases hstep
      rw [hproc] at hstep
      dsimp only at hstep
      rcases hppid : parsePPid status with _ | ppid
      · rw [hppid] at hstep
        cases hstep
      rw [hppid] at hstep
      dsimp only at hstep
      by_cases hle : ppid ≤ 1
      · rw [if_pos hle] at hstep
        cases hstep
      rw [if_neg hle] at hstep
      have hqppid : q = ppid := by
        cases hstep
        rfl
      subst hqppid
      have hcnot : c ∉ (List.range j).filterMap (pidChain proc selfPid) := by
        intro hmem
        rcases List.mem_filterMap.1 hmem with ⟨i, hi, hic⟩
        rw [List.mem_range] at hi
        have := hinj i j (by omega) (by omega) (by rw [hic, hc])
        omega
      have hfuel : 32 - j = (32 - (j + 1)) + 1 := by omega
      rw [hfuel, ancestorLoop_step proc _ _ c q status hcnot hproc hppid hle]
      have hpref : (List.range j).filterMap (pidChain proc selfPid) ++ [c] =
          (List.range (j + 1)).filterMap (pidChain proc selfPid) := by
        rw [List.range_succ, List.filterMap_append]
        simp [hc]
      rw [hpref]
      exact ih (j + 1) q (by omega) hq
  have h0 := main k 0 selfPid (by omega) rfl
  simpa [collect_ancestor_pids] using h0

/-- C5: the cleanup close-candidate set never contains a window whose pid
is the orchestrator's own pid or the pid of any ancestor reached within 32
parent hops of the process-table walk (for an acyclic stretch of the
table, i.e. the chain values are pairwise distinct). -/
theorem cleanup_candidates_exclude_self_and_ancestors
    (ctx : WorkspaceContext) (clients : List Client) (selfPid : Int)
    (proc : Int → Option Str) (k : Nat) (p : Int)
    (hk : k ≤ 32)
    (hchain : pidChain proc selfPid k = some p)
    (hinj : ∀ i j, i ≤ k → j ≤ k →
      pidChain proc selfPid i = pidChain proc selfPid j → i = j) :
    ∀ cand ∈ (collect_workspace_state_with_clients ctx clients selfPid proc).candidates,
      cand.pid ≠ selfPid ∧ cand.pid ≠ p := by
  intro cand hcand
  have hanc := chain_mem_collect_ancestor_pids proc selfPid k p hk hchain hinj
  rw [collect_workspace_state_with_clients] at hcand
  dsimp only at hcand
  rcases List.mem_map.1 hcand with ⟨c, hcmem, hmap⟩
  rw [List.mem_filter] at hcmem
  rcases hcmem with ⟨hcmem1, hcnot⟩
  rw [List.mem_filter] at hcmem1
  rcases hcmem1 with ⟨_, hcond⟩
  simp only [Bool.and_eq_true, decide_eq_true_eq] at hcond
  have hnotin : c.pid ∉ collect_ancestor_pids proc selfPid := of_decide_eq_true hcnot
  have hpid : cand.pid = c.pid := by
    rw [← hmap]
  rw [hpid]
  exact ⟨hcond.2, fun he => hnotin (he ▸ hanc)⟩

theorem cleanup_candidates_exclude_self_and_ancestors_witness :
    1 ≤ 32 ∧ pidChain c5proc 100 1 = some 10 ∧
      ∀ cand ∈ (collect_workspace_state_with_clients c5ctx [c5client] 100 c5proc).candidates,
        cand.pid ≠ 100 ∧ cand.pid ≠ 10 :=
  ⟨by decide, by decide,
   cleanup_candidates_exclude_self_and_ancestors c5ctx [c5client] 100 c5proc 1 10
     (by decide) (by decide)
     (by
       intro i j hi hj
       interval_cases i <;> interval_cases j <;> decide)⟩

theorem focusEvent_layoutEvent {wt : Option WorkspaceTarget} {e : Event}
    (hwt : wt ≠ none) (h : focusEvent e) : layoutEvent wt e := by
  rcases h with rfl | rfl | rfl | rfl | ⟨a, rfl⟩ <;>
    exact ⟨rfl, rfl, fun hn => absurd hn hwt⟩

theorem queryEvent_layoutEvent {wt : Option WorkspaceTarget} {e : Event}
    (h : queryEvent e) : layoutEvent wt e := by
  rcases h with rfl | rfl | rfl <;> exact ⟨rfl, rfl, fun _ => rfl⟩

theorem ensure_focus_layoutEvents (env : Env) (wt : Option WorkspaceTarget) (w : Wm) :
    ∃ res tr, ensure_workspace_focus env wt w = (res, w, tr) ∧
      ∀ e ∈ tr, layoutEvent wt e := by
  cases wt with
  | none => exact ⟨_, _, rfl, by simp⟩
  | some target =>
    rcases ensure_focus_spec env (some target) w with ⟨res, tr, h, hm⟩
    exact ⟨res, tr, h, fun e he => focusEvent_layoutEvent (by simp) (hm e he)⟩

theorem focus_window_none_eq (env : Env) (addr : Nat) (w : Wm) :
    focus_window env none addr w =
      (.ok (), { w with active := w.clients.find? fun c => c.address = addr },
        [.dispatchFocus addr, .queryActiveWindow]) := rfl

theorem focus_window_layoutEvents (env : Env) (wt : Option WorkspaceTarget)
    (addr : Nat) (w : Wm) :
    ∃ res act tr, focus_window env wt addr w = (res, { w with active := act }, tr) ∧
      ∀ e ∈ tr, layoutEvent wt e := by
  cases wt with
  | none =>
    refine ⟨_, _, _, focus_window_none_eq env addr w, ?_⟩
    intro e he
    fin_cases he <;> exact ⟨rfl, rfl, fun _ => rfl⟩
  | some target =>
    rcases focus_window_spec env (some target) addr w with ⟨res, act, tr, h, hm⟩
    exact ⟨res, act, tr, h, fun e he => focusEvent_layoutEvent (by simp) (hm e he)⟩

theorem wait_for_clients_shape (ctx : WorkspaceContext) (target : Nat) (w : Wm) :
    ∃ res, wait_for_clients_on_workspace ctx target w = (res, w, [.queryClients]) := by
  rw [wait_for_clients_on_workspace]
  split
  · exact ⟨_, rfl⟩
  · exact ⟨_, rfl⟩

theorem runLeaf_events (env : Env) (wt : Option WorkspaceTarget) (ctx : WorkspaceContext)
    (ws : Workset) (base : Nat) (slotId : Nat) (cmd : Str) (cwdO : Option Str)
    (envO : List (Str × Str)) (pending : Option ℚ) (r : Replay) (w : Wm) :
    ∀ e ∈ (runLeaf env wt ctx ws base slotId cmd cwdO envO pending r w).2.2.2.2,
      layoutEvent wt e := by
  rw [runLeaf.eq_def]
  split
  · rw [active_address_on_workspace]
    dsimp only
    intro e he
    simp only [List.mem_singleton] at he
    subst he
    exact ⟨rfl, rfl, fun _ => rfl⟩
  · rcases ensure_focus_layoutEvents env wt w with ⟨res1, t1, hE, hm1⟩
    rw [hE]
    cases res1 with
    | error e => exact hm1
    | ok u =>
      dsimp only
      rcases wait_for_clients_shape ctx (base + (r.launched + 1))
        (if env.appears r.launched = true then appendWindow ctx w else w) with ⟨res2, hW⟩
      rw [hW]
      cases res2 with
      | error e2 =>
        intro e he
        simp only [List.mem_append, List.mem_singleton, List.mem_cons,
          List.not_mem_nil, or_false] at he
        rcases he with (he | rfl) | rfl
        · exact hm1 e he
        · exact ⟨rfl, rfl, fun _ => rfl⟩
        · exact ⟨rfl, rfl, fun _ => rfl⟩
      | ok u2 =>
        dsimp only
        rcases anchorStep_spec ctx
          { r with launchedSlots := r.launchedSlots ++ [slotId],
                   launched := r.launched + 1 }
          (if env.appears r.launched = true then appendWindow ctx w else w) with
          ⟨anchor, r2, t4, hA, _, _, _, hA4⟩
        rw [hA]
        intro e he
        simp only [List.mem_append, List.mem_singleton, List.mem_cons,
          List.not_mem_nil, or_false] at he
        rcases he with (((he | rfl) | rfl) | he) | he
        · exact hm1 e he
        · exact ⟨rfl, rfl, fun _ => rfl⟩
        · exact ⟨rfl, rfl, fun _ => rfl⟩
        · rcases pending with _ | q
          · simp at he
          · simp only [List.mem_singleton] at he
            subst he
            exact ⟨rfl, rfl, fun _ => rfl⟩
        · exact queryEvent_layoutEvent (hA4 e he)

theorem runLeftAnchor_events (env : Env) (wt : Option WorkspaceTarget)
    (ctx : WorkspaceContext) (ws : Workset) (base : Nat) (t : LayoutNode) :
    ∀ (pending : Option ℚ) (r : Replay) (w : Wm),
      ∀ e ∈ (runLeftAnchor env wt ctx ws base t pending r w).2.2.2.2,
        layoutEvent wt e := by
  induction t with
  | leaf i c cw ev =>
    intro pending r w
    rw [runLeftAnchor]
    exact runLeaf_events env wt ctx ws base i c cw ev pending r w
  | split d q l rt ihl ihr =>
    intro pending r w
    rw [runLeftAnchor]
    exact ihl pending r w

theorem runLayoutInner_events (env : Env) (wt : Option WorkspaceTarget)
    (ctx : WorkspaceContext) (ws : Workset) (base : Nat) (t : LayoutNode) :
    ∀ (pending : Option ℚ) (r : Replay) (w : Wm),
      ∀ e ∈ (runLayoutInner env wt ctx ws base t pending r w).2.2.2.2,
        layoutEvent wt e := by
  induction t with
  | leaf i c cw ev =>
    intro pending r w
    rw [runLayoutInner]
    exact runLeaf_events env wt ctx ws base i c cw ev pending r w
  | split d q l rt ihl ihr =>
    intro pending r w
    rw [runLayoutInner]
    dsimp only
    have hleft : ∀ e ∈ ((if l.isSplit then runLeftAnchor env wt ctx ws base l pending r w
        else runLayoutInner env wt ctx ws base l pending r w)).2.2.2.2, layoutEvent wt e := by
      split
      · exact runLeftAnchor_events env wt ctx ws base l pending r w
      · exact ihl pending r w
    rcases hPass : (if l.isSplit then runLeftAnchor env wt ctx ws base l pending r w
        else runLayoutInner env wt ctx ws base l pending r w) with ⟨res1, p1, r1, w1, t1⟩
    rw [hPass] at hleft
    cases res1 with
    | error e1 => exact hleft
    | ok leftAnchor =>
      dsimp only
      have hFoc : ∃ res2 w2 t2, (match leftAnchor with
          | some addr => focus_window env wt addr w1
          | none => ensure_workspace_focus env wt w1) = (res2, w2, t2) ∧
          ∀ e ∈ t2, layoutEvent wt e := by
        cases leftAnchor with
        | some addr =>
          rcases focus_window_layoutEvents env wt addr w1 with ⟨res2, act, t2, hF, hm⟩
          exact ⟨_, _, _, hF, hm⟩
        | none =>
          rcases ensure_focus_layoutEvents env wt w1 with ⟨res2, t2, hF, hm⟩
          exact ⟨_, _, _, hF, hm⟩
      rcases hFoc with ⟨res2, w2, t2, hF, hm2⟩
      rw [hF]
      cases res2 with
      | error e2 =>
        intro e he
        rcases List.mem_append.1 he with he | he
        · exact hleft e he
        · exact hm2 e he
      | ok u =>
        dsimp only
        have hright := ihr (some (to_hypr_split_ratio q)) r1 w2
        rcases hR : runLayoutInner env wt ctx ws base rt (some (to_hypr_split_ratio q)) r1 w2
          with ⟨res3, p3, r3, w3, t3⟩
        rw [hR] at hright
        cases res3 with
        | error e3 =>
          intro e he
          simp only [List.mem_append] at he
          rcases he with (he | he) | he
          · exact hleft e he
          · exact hm2 e he
          · exact hright e he
        | ok rightAnchor =>
          dsimp only
          rcases wait_for_clients_shape ctx (base + r3.launched) w3 with ⟨res4, hW⟩
          rw [hW]
          cases res4 with
          | error e4 =>
            intro e he
            simp only [List.mem_append, List.mem_singleton, List.mem_cons,
              List.not_mem_nil, or_false] at he
            rcases he with ((he | he) | he) | rfl
            · exact hleft e he
            · exact hm2 e he
            · exact hright e he
            · exact ⟨rfl, rfl, fun _ => rfl⟩
          | ok u4 =>
            dsimp only
            split
            · -- left was a split: refocus and once-more replay
              have hFoc2 : ∃ res5 w5 t5, (match leftAnchor with
                  | some addr => focus_window env wt addr w3
                  | none => ensure_workspace_focus env wt w3) = (res5, w5, t5) ∧
                  ∀ e ∈ t5, layoutEvent wt e := by
                cases leftAnchor with
                | some addr =>
                  rcases focus_window_layoutEvents env wt addr w3 with ⟨res5, act, t5, hF2, hm⟩
                  exact ⟨_, _, _, hF2, hm⟩
                | none =>
                  rcases ensure_focus_layoutEvents env wt w3 with ⟨res5, t5, hF2, hm⟩
                  exact ⟨_, _, _, hF2, hm⟩
              rcases hFoc2 with ⟨res5, w5, t5, hF2, hm5⟩
              rw [hF2]
              cases res5 with
              | error e5 =>
                intro e he
                simp only [List.mem_append, List.mem_singleton, List.mem_cons,
                  List.not_mem_nil, or_false] at he
                rcases he with (((he | he) | he) | rfl) | he
                · exact hleft e he
                · exact hm2 e he
                · exact hright e he
                · exact ⟨rfl, rfl, fun _ => rfl⟩
                · exact hm5 e he
              | ok u5 =>
                dsimp only
                have hleft2 := ihl p1 r3 w5
                rcases hL2 : runLayoutInner env wt ctx ws base l p1 r3 w5 with
                  ⟨res6, p6, r6, w6, t6⟩
                rw [hL2] at hleft2
                cases res6 with
                | error e6 =>
                  intro e he
                  simp only [List.mem_append, List.mem_singleton, List.mem_cons,
                    List.not_mem_nil, or_false] at he
                  rcases he with ((((he | he) | he) | rfl) | he) | he
                  · exact hleft e he
                  · exact hm2 e he
                  · exact hright e he
                  · exact ⟨rfl, rfl, fun _ => rfl⟩
                  · exact hm5 e he
                  · exact hleft2 e he
                | ok remainingLeft =>
                  intro e he
                  simp only [List.mem_append, List.mem_singleton, List.mem_cons,
                    List.not_mem_nil, or_false] at he
                  rcases he with ((((he | he) | he) | rfl) | he) | he
                  · exact hleft e he
                  · exact hm2 e he
                  · exact hright e he
                  · exact ⟨rfl, rfl, fun _ => rfl⟩
                  · exact hm5 e he
                  · exact hleft2 e he
            · intro e he
              simp only [List.mem_append, List.mem_singleton, List.mem_cons,
                List.not_mem_nil, or_false] at he
              rcases he with ((he | he) | he) | rfl
              · exact hleft e he
              · exact hm2 e he
              · exact hright e he
              · exact ⟨rfl, rfl, fun _ => rfl⟩

theorem run_layout_events (env : Env) (t : LayoutNode) (ws : Workset)
    (ctx : WorkspaceContext) (wt : Option WorkspaceTarget) (w : Wm) :
    ∀ e ∈ (run_layout env t ws ctx wt w).2.2, layoutEvent wt e := by
  rw [run_layout]
  intro e he
  split at he
  next a p1 r1 w1 t1 heq =>
    have hinner := runLayoutInner_events env wt ctx ws
      ((w.clients.filter fun c => ctx.matches c.workspace).foldl
        (fun s c => if c.address ∈ s then s else s ++ [c.address]) []).length t none
      { launched := 0,
        known :=
          (w.clients.filter fun c => ctx.matches c.workspace).foldl
            (fun s c => if c.address ∈ s then s else s ++ [c.address]) [],
        launchedSlots := [] } w
    rw [heq] at hinner
    simp only [List.mem_cons] at he
    rcases he with rfl | he
    · exact ⟨rfl, rfl, fun _ => rfl⟩
    · exact hinner e he
  next e1 p1 r1 w1 t1 heq =>
    have hinner := runLayoutInner_events env wt ctx ws
      ((w.clients.filter fun c => ctx.matches c.workspace).foldl
        (fun s c => if c.address ∈ s then s else s ++ [c.address]) []).length t none
      { launched := 0,
        known :=
          (w.clients.filter fun c => ctx.matches c.workspace).foldl
            (fun s c => if c.address ∈ s then s else s ++ [c.address]) [],
        launchedSlots := [] } w
    rw [heq] at hinner
    simp only [List.mem_cons] at he
    rcases he with rfl | he
    · exact ⟨rfl, rfl, fun _ => rfl⟩
    · exact hinner e he

theorem runCommandsLoop_events (env : Env) (wt : Option WorkspaceTarget) (ws : Workset) :
    ∀ (cmds : List Str) (w : Wm),
      ∀ e ∈ (runCommandsLoop env wt ws cmds w).2.2, layoutEvent wt e := by
  intro cmds
  induction cmds with
  | nil =>
    intro w e he
    simp [runCommandsLoop] at he
  | cons cmd rest ih =>
    intro w
    rw [runCommandsLoop]
    rcases ensure_focus_layoutEvents env wt w with ⟨res1, t1, hE, hm1⟩
    rw [hE]
    cases res1 with
    | error e1 => exact hm1
    | ok u =>
      dsimp only
      have hrest := ih w
      rcases hR : runCommandsLoop env wt ws rest w with ⟨res2, w2, t2⟩
      rw [hR] at hrest
      intro e he
      simp only [List.mem_append, List.mem_singleton, List.mem_cons,
        List.not_mem_nil, or_false] at he
      rcases he with (he | rfl) | he
      · exact hm1 e he
      · exact ⟨rfl, rfl, fun _ => rfl⟩
      · exact hrest e he

theorem run_commands_events (env : Env) (ws : Workset) (wt : Option WorkspaceTarget)
    (w : Wm) : ∀ e ∈ (run_commands env ws wt w).2.2, layoutEvent wt e := by
  rw [run_commands]
  split
  · intro e he
    simp at he
  · exact runCommandsLoop_events env wt ws ws.commands w

theorem cleanEvent_not_lock_switch_exec {e : Event} (h : cleanEvent e) :
    e.isLock = false ∧ e.isSwitch = false ∧ e.isExec = false := by
  rcases h with rfl | rfl | ⟨a, rfl⟩ <;> exact ⟨rfl, rfl, rfl⟩

theorem closeAll_events (env : Env) :
    ∀ (cands : List CloseCandidate) (w : Wm),
      ∀ e ∈ (closeAll env cands w).2, ∃ a, e = Event.dispatchClose a := by
  intro cands
  induction cands with
  | nil =>
    intro w e he
    simp [closeAll] at he
  | cons c rest ih =>
    intro w
    rw [closeAll]
    dsimp only
    intro e he
    simp only [List.mem_cons] at he
    rcases he with rfl | he
    · exact ⟨c.address, rfl⟩
    · exact ih _ e he

theorem wait_at_most_shape (ctx : WorkspaceContext) (maxCount : Nat) (w : Wm) :
    ∃ res, wait_for_clients_at_most ctx maxCount w = (res, w, [.queryClients]) := by
  rw [wait_for_clients_at_most]
  split
  · exact ⟨_, rfl⟩
  · exact ⟨_, rfl⟩

theorem cleanClosePhase_events (env : Env) (ctx : WorkspaceContext)
    (st : ActiveWorkspaceState) (w : Wm) :
    ∀ e ∈ (cleanClosePhase env ctx st w).2.2, cleanEvent e := by
  rw [cleanClosePhase]
  have hclose := closeAll_events env st.candidates w
  rcases hC : closeAll env st.candidates w with ⟨w1, closeEvents⟩
  rw [hC] at hclose
  dsimp only
  obtain ⟨res, hW⟩ := wait_at_most_shape ctx (st.initial_clients - st.candidates.length) w1
  rw [hW]
  cases res with
  | error e1 =>
    intro e he
    simp only [List.mem_append, List.mem_singleton, List.mem_cons,
      List.not_mem_nil, or_false] at he
    rcases he with he | rfl
    · exact Or.inr (Or.inr (hclose e he))
    · exact Or.inl rfl
  | ok u =>
    intro e he
    simp only [List.mem_append, List.mem_singleton, List.mem_cons,
      List.not_mem_nil, or_false] at he
    rcases he with he | rfl
    · exact Or.inr (Or.inr (hclose e he))
    · exact Or.inl rfl

theorem clean_workspace_events (env : Env) (ctx : WorkspaceContext) (preconfirm : Bool)
    (w : Wm) : ∀ e ∈ (clean_workspace env ctx preconfirm w).2.2, cleanEvent e := by
  rw [clean_workspace]
  split
  · intro e he
    simp only [List.mem_singleton, List.mem_cons, List.not_mem_nil, or_false] at he
    subst he
    exact Or.inl rfl
  · split
    · rcases hP : cleanClosePhase env ctx
        (collect_workspace_state_with_clients ctx w.clients env.selfPid env.proc) w with
        ⟨res1, w1, t1⟩
      have := cleanClosePhase_events env ctx
        (collect_workspace_state_with_clients ctx w.clients env.selfPid env.proc) w
      rw [hP] at this
      intro e he
      simp only [List.mem_cons] at he
      rcases he with rfl | he
      · exact Or.inl rfl
      · exact this e he
    · split
      · rcases hP : cleanClosePhase env ctx
          (collect_workspace_state_with_clients ctx w.clients env.selfPid env.proc) w with
          ⟨res1, w1, t1⟩
        have := cleanClosePhase_events env ctx
          (collect_workspace_state_with_clients ctx w.clients env.selfPid env.proc) w
        rw [hP] at this
        intro e he
        simp only [List.mem_cons] at he
        rcases he with rfl | he
        · exact Or.inl rfl
        · rcases he with rfl | he
          · exact Or.inr (Or.inl rfl)
          · exact this e he
      · intro e he
        simp only [List.mem_cons, List.not_mem_nil, or_false] at he
        rcases he with rfl | rfl
        · exact Or.inl rfl
        · exact Or.inr (Or.inl rfl)

theorem focusEvent_flags {e : Event} (h : focusEvent e) :
    e.isLock = false ∧ e.isClose = false ∧ e.isExec = false := by
  rcases h with rfl | rfl | rfl | rfl | ⟨a, rfl⟩ <;> exact ⟨rfl, rfl, rfl⟩

theorem queryEvent_flags {e : Event} (h : queryEvent e) :
    e.isLock = false ∧ e.isClose = false ∧ e.isExec = false ∧ e.isSwitch = false := by
  rcases h with rfl | rfl | rfl <;> exact ⟨rfl, rfl, rfl, rfl⟩

/-- `resolve_launch_workspace` leaves the window-manager state unchanged,
emits no lock, close or exec events (and no workspace switch at all when
the workset has no override), and on success returns exactly the parsed
override as the launch target. -/
theorem resolve_launch_spec (env : Env) (ws : Workset) (w : Wm) :
    ∃ res tr, resolve_launch_workspace env ws w = (res, w, tr) ∧
      (∀ e ∈ tr, e.isLock = false ∧ e.isClose = false ∧ e.isExec = false ∧
        (workspace_override ws = none → e.isSwitch = false)) ∧
      ∀ p, res = Except.ok p → p.1 = workspace_override ws := by
  rw [resolve_launch_workspace]
  cases hov : workspace_override ws with
  | some target =>
    dsimp only
    rcases ensure_target_spec env target w with ⟨res1, tr1, h1, hm1⟩
    rw [h1]
    cases res1 with
    | error e1 =>
      refine ⟨_, _, rfl, ?_, ?_⟩
      · intro e he
        obtain ⟨hl, hc, hx⟩ := focusEvent_flags (hm1 e he)
        exact ⟨hl, hc, hx, fun hn => by cases hn⟩
      · intro p hp
        simp at hp
    | ok ctx =>
      refine ⟨_, _, rfl, ?_, ?_⟩
      · intro e he
        obtain ⟨hl, hc, hx⟩ := focusEvent_flags (hm1 e he)
        exact ⟨hl, hc, hx, fun hn => by cases hn⟩
      · intro p hp
        injection hp with h
        subst h
        rfl
  | none =>
    dsimp only
    rcases resolve_active_spec env w with ⟨ctx, tr1, h1, hm1⟩
    rw [h1]
    refine ⟨_, _, rfl, ?_, ?_⟩
    · intro e he
      obtain ⟨hl, hc, hx, hs⟩ := queryEvent_flags (hm1 e he)
      exact ⟨hl, hc, hx, fun _ => hs⟩
    · intro p hp
      injection hp with h
      subst h
      rfl

/-- The launch body between lock acquisition and release never emits a
lock event, and never emits a workspace switch when the workset declares
no override. -/
theorem runWorksetBody_events (env : Env) (ws : Workset) (preconfirm : Bool) (w : Wm) :
    ∀ e ∈ (runWorksetBody env ws preconfirm w).2.2,
      e.isLock = false ∧ (workspace_override ws = none → e.isSwitch = false) := by
  rw [runWorksetBody]
  rcases resolve_launch_spec env ws w with ⟨res1, tr1, h1, hm1, hres⟩
  rw [h1]
  cases res1 with
  | error e1 =>
    intro e he
    exact ⟨(hm1 e he).1, (hm1 e he).2.2.2⟩
  | ok p =>
    obtain ⟨wt, ctx⟩ := p
    have hwt : wt = workspace_override ws := hres (wt, ctx) rfl
    dsimp only
    have hclean := clean_workspace_events env ctx preconfirm w
    rcases hC : clean_workspace env ctx preconfirm w with ⟨res2, w2, t2⟩
    rw [hC] at hclean
    cases res2 with
    | error e2 =>
      intro e he
      simp only [List.mem_append] at he
      rcases he with he | he
      · exact ⟨(hm1 e he).1, (hm1 e he).2.2.2⟩
      · obtain ⟨hl, hs, _⟩ := cleanEvent_not_lock_switch_exec (hclean e he)
        exact ⟨hl, fun _ => hs⟩
    | ok act =>
      cases act with
      | cancelled =>
        intro e he
        simp only [List.mem_append] at he
        rcases he with he | he
        · exact ⟨(hm1 e he).1, (hm1 e he).2.2.2⟩
        · obtain ⟨hl, hs, _⟩ := cleanEvent_not_lock_switch_exec (hclean e he)
          exact ⟨hl, fun _ => hs⟩
      | proceed =>
        cases hlay : ws.layout with
        | some layout =>
          dsimp only
          have hL := run_layout_events env layout ws ctx wt w2
          rcases hR : run_layout env layout ws ctx wt w2 with ⟨res3, w3, t3⟩
          rw [hR] at hL
          cases res3 with
          | error e3 =>
            dsimp only
            intro e he
            simp only [List.mem_append] at he
            rcases he with (he | he) | he
            · exact ⟨(hm1 e he).1, (hm1 e he).2.2.2⟩
            · obtain ⟨hl, hs, _⟩ := cleanEvent_not_lock_switch_exec (hclean e he)
              exact ⟨hl, fun _ => hs⟩
            · obtain ⟨hl, _, hs⟩ := hL e he
              exact ⟨hl, fun hn => hs (hwt.trans hn)⟩
          | ok u =>
            dsimp only
            intro e he
            simp only [List.mem_append] at he
            rcases he with (he | he) | he
            · exact ⟨(hm1 e he).1, (hm1 e he).2.2.2⟩
            · obtain ⟨hl, hs, _⟩ := cleanEvent_not_lock_switch_exec (hclean e he)
              exact ⟨hl, fun _ => hs⟩
            · obtain ⟨hl, _, hs⟩ := hL e he
              exact ⟨hl, fun hn => hs (hwt.trans hn)⟩
        | none =>
          dsimp only
          have hL := run_commands_events env ws wt w2
          rcases hR : run_commands env ws wt w2 with ⟨res3, w3, t3⟩
          rw [hR] at hL
          cases res3 with
          | error e3 =>
            dsimp only
            intro e he
            simp only [List.mem_append] at he
            rcases he with (he | he) | he
            · exact ⟨(hm1 e he).1, (hm1 e he).2.2.2⟩
            · obtain ⟨hl, hs, _⟩ := cleanEvent_not_lock_switch_exec (hclean e he)
              exact ⟨hl, fun _ => hs⟩
            · obtain ⟨hl, _, hs⟩ := hL e he
              exact ⟨hl, fun hn => hs (hwt.trans hn)⟩
          | ok u =>
            dsimp only
            intro e he
            simp only [List.mem_append] at he
            rcases he with (he | he) | he
            · exact ⟨(hm1 e he).1, (hm1 e he).2.2.2⟩
            · obtain ⟨hl, hs, _⟩ := cleanEvent_not_lock_switch_exec (hclean e he)
              exact ⟨hl, fun _ => hs⟩
            · obtain ⟨hl, _, hs⟩ := hL e he
              exact ⟨hl, fun hn => hs (hwt.trans hn)⟩

/-- C3: `run_workset` takes the exclusive advisory launch lock before any
window-manager interaction.  If acquisition fails, the launch aborts with
an error and an empty event trace (side-effect-free, pre-mutation abort);
if it succeeds, the whole trace is bracketed as acquisition first, release
last — on every exit path, success or failure — with no lock activity in
between. -/
theorem launch_lock_brackets_all_dispatches (env : Env) (ws : Workset)
    (preconfirm : Bool) (w : Wm) :
    (env.lockOk = false →
      run_workset env ws preconfirm w = (.error .lockFailed, w, [])) ∧
    (env.lockOk = true →
      ∃ mid,
        (run_workset env ws preconfirm w).2.2 = .lockAcquire :: (mid ++ [.lockRelease]) ∧
        ∀ e ∈ mid, e.isLock = false) := by
  constructor
  · intro hlock
    rw [run_workset, hlock]
    simp
  · intro hlock
    rw [run_workset, hlock]
    have hbody := runWorksetBody_events env ws preconfirm w
    rcases hB : runWorksetBody env ws preconfirm w with ⟨res1, w1, t1⟩
    rw [hB] at hbody
    simp only [if_true]
    exact ⟨t1, rfl, fun e he => (hbody e he).1⟩

theorem launch_lock_brackets_all_dispatches_witness :
    run_workset { cexEnv with lockOk := false } cexWorkset false cexWm =
        (.error .lockFailed, cexWm, []) ∧
      ∃ mid,
        (run_workset cexEnv cexWorkset false cexWm).2.2 =
          .lockAcquire :: (mid ++ [.lockRelease]) ∧
        ∀ e ∈ mid, e.isLock = false :=
  ⟨(launch_lock_brackets_all_dispatches { cexEnv with lockOk := false }
      cexWorkset false cexWm).1 rfl,
   (launch_lock_brackets_all_dispatches cexEnv cexWorkset false cexWm).2 rfl⟩

/-- C10: a workset whose declared workspace string trims to empty is
treated as having no override: `workspace_override` is `none`,
`resolve_launch_workspace` returns no target and falls back to the active
workspace, and no workspace-switch dispatch appears anywhere in the
launch's event trace. -/
theorem blank_workspace_override_no_switch (env : Env) (ws : Workset)
    (preconfirm : Bool) (w : Wm) (s : Str) (hws : ws.workspace = some s)
    (hblank : rustTrim s = []) :
    workspace_override ws = none ∧
    (∃ ctx tr, resolve_active_workspace env w = (.ok ctx, w, tr) ∧
        resolve_launch_workspace env ws w = (.ok (none, ctx), w, tr)) ∧
    ∀ e ∈ (run_workset env ws preconfirm w).2.2, e.isSwitch = false := by
  have hov : workspace_override ws = none := by
    rw [workspace_override, hws]
    simp [hblank]
  refine ⟨hov, ?_, ?_⟩
  · rcases resolve_active_spec env w with ⟨ctx, tr, hA, _⟩
    refine ⟨ctx, tr, hA, ?_⟩
    rw [resolve_launch_workspace, hov]
    dsimp only
    rw [hA]
  · rw [run_workset]
    split
    · have hbody := runWorksetBody_events env ws preconfirm w
      rcases hB : runWorksetBody env ws preconfirm w with ⟨res1, w1, t1⟩
      rw [hB] at hbody
      dsimp only
      intro e he
      simp only [List.mem_cons, List.mem_append, List.mem_singleton,
        List.not_mem_nil, or_false] at he
      rcases he with rfl | he | rfl
      · rfl
      · exact (hbody e he).2 hov
      · rfl
    · intro e he
      simp at he

theorem blank_workspace_override_no_switch_witness :
    default_template_workset.workspace = some [] ∧ rustTrim [] = [] ∧
      (workspace_override default_template_workset = none ∧
        (∃ ctx tr, resolve_active_workspace cexEnv cexWm = (.ok ctx, cexWm, tr) ∧
            resolve_launch_workspace cexEnv default_template_workset cexWm =
              (.ok (none, ctx), cexWm, tr)) ∧
        ∀ e ∈ (run_workset cexEnv default_template_workset false cexWm).2.2,
          e.isSwitch = false) :=
  ⟨rfl, rfl,
   blank_workspace_override_no_switch cexEnv default_template_workset false cexWm
     [] rfl rfl⟩

/-- C4: with the lock held and workspace resolution succeeded, if the
cleanup candidate set is non-empty, the caller did not pre-confirm, and
the standard-input answer is not affirmative, the launch returns a
cancelled, non-error result whose whole event trace contains no close
dispatch and no exec dispatch: nothing was closed and no layout leaf or
sequential command was launched. -/
theorem decline_cleanup_cancels_without_dispatches (env : Env) (ws : Workset)
    (w : Wm) (wt : Option WorkspaceTarget) (ctx : WorkspaceContext) (t1 : List Event)
    (hres : resolve_launch_workspace env ws w = (.ok (wt, ctx), w, t1))
    (hcand : (collect_workspace_state_with_clients ctx w.clients env.selfPid
        env.proc).candidates ≠ [])
    (hans : isAffirmative env.stdin = false) :
    run_workset env ws false w =
      (if env.lockOk then
        (.ok .cancelled, w,
          .lockAcquire :: ((t1 ++ [.queryClients, .promptRead]) ++ [.lockRelease]))
      else (.error .lockFailed, w, [])) ∧
    ∀ e ∈ (run_workset env ws false w).2.2, e.isClose = false ∧ e.isExec = false := by
  have hne : (collect_workspace_state_with_clients ctx w.clients env.selfPid
      env.proc).candidates.isEmpty = false := by
    rw [List.isEmpty_eq_false]
    exact hcand
  have hclean : clean_workspace env ctx false w =
      (.ok .cancelled, w, [.queryClients, .promptRead]) := by
    rw [clean_workspace]
    rw [hne, hans]
    rfl
  have hbody : runWorksetBody env ws false w =
      (.ok .cancelled, w, t1 ++ [.queryClients, .promptRead]) := by
    rw [runWorksetBody, hres]
    dsimp only
    rw [hclean]
  have ht1 : ∀ e ∈ t1, e.isClose = false ∧ e.isExec = false := by
    rcases resolve_launch_spec env ws w with ⟨res, tr, heq, hm, _⟩
    have h2 := hres.symm.trans heq
    injection h2 with ha hb
    injection hb with hc hd
    subst hd
    exact fun e he => ⟨(hm e he).2.1, (hm e he).2.2.1⟩
  have hrun : run_workset env ws false w =
      (if env.lockOk then
        (.ok .cancelled, w,
          .lockAcquire :: ((t1 ++ [.queryClients, .promptRead]) ++ [.lockRelease]))
      else (.error .lockFailed, w, [])) := by
    rw [run_workset]
    cases hlock : env.lockOk with
    | true =>
      rw [if_pos rfl, if_pos rfl, hbody]
    | false =>
      rw [if_neg (by simp), if_neg (by simp)]
  refine ⟨hrun, ?_⟩
  rw [hrun]
  cases hlock : env.lockOk with
  | true =>
    rw [if_pos rfl]
    intro e he
    simp only [List.mem_cons, List.mem_append, List.mem_singleton,
      List.not_mem_nil, or_false] at he
    rcases he with rfl | (he | rfl | rfl) | rfl
    · exact ⟨rfl, rfl⟩
    · exact ht1 e he
    · exact ⟨rfl, rfl⟩
    · exact ⟨rfl, rfl⟩
    · exact ⟨rfl, rfl⟩
  | false =>
    rw [if_neg (by simp)]
    intro e he
    simp at he

theorem decline_cleanup_cancels_without_dispatches_witness :
    isAffirmative cexEnv.stdin = false ∧
      run_workset cexEnv cexWorkset false c4wm =
        (.ok .cancelled, c4wm,
          .lockAcquire ::
            (([.queryClients, .queryActiveWindow, .queryActiveMonitor] ++
                [.queryClients, .promptRead]) ++ [.lockRelease])) :=
  ⟨rfl,
   by
    have h := (decline_cleanup_cancels_without_dispatches cexEnv cexWorkset c4wm none
      (WorkspaceContext.from_basic { id := 1, name := ['o'] })
      [.queryClients, .queryActiveWindow, .queryActiveMonitor]
      (by rfl) (by decide) rfl).1
    rw [h]
    rfl⟩

theorem countOn_appendWindow (ctx : WorkspaceContext) (w : Wm) :
    countOn ctx (appendWindow ctx w) = countOn ctx w + 1 := by
  rw [countOn, countOn, appendWindow]
  dsimp only
  rw [List.filter_append, List.length_append]
  simp [WorkspaceContext.matches]

theorem ensure_focus_wm (env : Env) (wt : Option WorkspaceTarget) (w : Wm)
    {res : Except RunError Unit} {w' : Wm} {tr : List Event}
    (h : ensure_workspace_focus env wt w = (res, w', tr)) : w' = w := by
  rcases ensure_focus_spec env wt w with ⟨res2, tr2, heq, _⟩
  rw [h] at heq
  simp only [Prod.mk.injEq] at heq
  exact heq.2.1

theorem focus_window_clients (env : Env) (wt : Option WorkspaceTarget) (addr : Nat)
    (w : Wm) {res : Except RunError Unit} {w' : Wm} {tr : List Event}
    (h : focus_window env wt addr w = (res, w', tr)) : w'.clients = w.clients := by
  rw [focus_window] at h
  try dsimp only at h
  rcases hE : ensure_workspace_focus env wt
      { w with active := w.clients.find? fun c => c.address = addr } with ⟨res1, w2, t2⟩
  rw [hE] at h
  have hw2 := ensure_focus_wm env wt _ hE
  subst hw2
  cases res1 with
  | error e1 =>
    dsimp only at h
    simp only [Prod.mk.injEq] at h
    rw [← h.2.1]
  | ok u =>
    dsimp only at h
    simp only [Prod.mk.injEq] at h
    rw [← h.2.1]

theorem ensure_target_error_switch (env : Env) (target : WorkspaceTarget) (w : Wm)
    {e : RunError} {w' : Wm} {tr : List Event}
    (h : ensure_target_active env target w = (.error e, w', tr)) :
    ∃ lbl, e = .switchTimeout lbl := by
  rw [ensure_target_active] at h
  rcases resolve_active_spec env w with ⟨ctx, tr1, hA, _⟩
  rw [hA] at h
  dsimp only at h
  split at h
  · simp at h
  · rw [wait_for_target_workspace] at h
    split at h
    · dsimp only at h
      simp at h
    · dsimp only at h
      simp only [Prod.mk.injEq, Except.error.injEq] at h
      exact ⟨target.label, h.1.symm⟩

theorem ensure_focus_error_switch (env : Env) (wt : Option WorkspaceTarget) (w : Wm)
    {e : RunError} {w' : Wm} {tr : List Event}
    (h : ensure_workspace_focus env wt w = (.error e, w', tr)) :
    ∃ lbl, e = .switchTimeout lbl := by
  cases wt with
  | none => simp [ensure_workspace_focus] at h
  | some target =>
    rw [ensure_workspace_focus] at h
    rcases resolve_active_spec env w with ⟨ctx, tr1, hA, _⟩
    rw [hA] at h
    dsimp only at h
    split at h
    · simp at h
    · rcases hT : ensure_target_active env target w with ⟨res2, w2, t2⟩
      rw [hT] at h
      cases res2 with
      | error e2 =>
        dsimp only at h
        simp only [Prod.mk.injEq, Except.error.injEq] at h
        rcases ensure_target_error_switch env target w hT with ⟨lbl, rfl⟩
        exact ⟨lbl, h.1.symm⟩
      | ok u =>
        dsimp only at h
        simp at h

theorem focus_window_error_switch (env : Env) (wt : Option WorkspaceTarget)
    (addr : Nat) (w : Wm) {e : RunError} {w' : Wm} {tr : List Event}
    (h : focus_window env wt addr w = (.error e, w', tr)) :
    ∃ lbl, e = .switchTimeout lbl := by
  rw [focus_window] at h
  try dsimp only at h
  rcases hE : ensure_workspace_focus env wt
      { w with active := w.clients.find? fun c => c.address = addr } with ⟨res1, w2, t2⟩
  rw [hE] at h
  cases res1 with
  | error e1 =>
    dsimp only at h
    simp only [Prod.mk.injEq, Except.error.injEq] at h
    rcases ensure_focus_error_switch env wt _ hE with ⟨lbl, rfl⟩
    exact ⟨lbl, h.1.symm⟩
  | ok u =>
    dsimp only at h
    simp at h

theorem dedupFoldl_length (l : List Client) : ∀ acc : List Nat,
    (l.foldl (fun s c => if c.address ∈ s then s else s ++ [c.address]) acc).length ≤
      acc.length + l.length := by
  induction l with
  | nil => intro acc; simp
  | cons c rest ih =>
    intro acc
    rw [List.foldl_cons]
    by_cases hmem : c.address ∈ acc
    · rw [if_pos hmem]
      have := ih acc
      simp only [List.length_cons]
      omega
    · rw [if_neg hmem]
      have := ih (acc ++ [c.address])
      simp only [List.length_append, List.length_cons, List.length_nil] at this ⊢
      omega

theorem wait_fields (ctx : WorkspaceContext) (target : Nat) (w : Wm)
    {res : Except RunError Unit} {w' : Wm} {tr : List Event}
    (h : wait_for_clients_on_workspace ctx target w = (res, w', tr)) :
    w' = w ∧ tr = [.queryClients] ∧
      (∀ u, res = .ok u → target ≤ countOn ctx w) ∧
      ∀ e, res = .error e →
        e = .appearTimeout ctx.label WINDOW_APPEAR_TIMEOUT_SECS (countOn ctx w) target ∧
          countOn ctx w < target := by
  rw [wait_for_clients_on_workspace] at h
  try dsimp only at h
  split at h
  · simp only [Prod.mk.injEq] at h
    refine ⟨h.2.1.symm, h.2.2.symm, fun u _ => ?_, fun e he => ?_⟩
    · assumption
    · rw [← h.1] at he
      cases he
  · simp only [Prod.mk.injEq] at h
    rename_i hc
    refine ⟨h.2.1.symm, h.2.2.symm, fun u hu => ?_, fun e he => ?_⟩
    · rw [← h.1] at hu
      cases hu
    · rw [← h.1] at he
      injection he with he2
      exact ⟨he2.symm, by omega⟩

theorem anchorStep_fields (ctx : WorkspaceContext) (r : Replay) (w : Wm)
    {anchor : Option Nat} {r2 : Replay} {w4 : Wm} {t4 : List Event}
    (h : anchorStep ctx r w = (anchor, r2, w4, t4)) :
    w4 = w ∧ r2.launched = r.launched ∧ r2.launchedSlots = r.launchedSlots ∧
      execSlotsOf t4 = [] ∧ ∀ e ∈ t4, queryEvent e := by
  rcases anchorStep_spec ctx r w with ⟨a2, r3, t5, heq, hl, hsl, hx, hq⟩
  rw [h] at heq
  simp only [Prod.mk.injEq] at heq
  obtain ⟨h1, h2, h3, h4⟩ := heq
  subst h1; subst h2; subst h3; subst h4
  exact ⟨rfl, hl, hsl, hx, hq⟩

/-- Success of the leaf arm preserves the window-count invariant: the
count on the workspace stays at least the base plus the launched
counter. -/
theorem runLeaf_count (env : Env) (wt : Option WorkspaceTarget) (ctx : WorkspaceContext)
    (ws : Workset) (base : Nat) (slotId : Nat) (cmd : Str) (cwdO : Option Str)
    (envO : List (Str × Str)) (pending : Option ℚ) (r : Replay) (w : Wm)
    (hinv : base + r.launched ≤ countOn ctx w)
    {a : Option Nat} {p' : Option ℚ} {r' : Replay} {w' : Wm} {tr : List Event}
    (h : runLeaf env wt ctx ws base slotId cmd cwdO envO pending r w =
      (.ok a, p', r', w', tr)) :
    base + r'.launched ≤ countOn ctx w' := by
  rw [runLeaf.eq_def] at h
  by_cases hmem : slotId ∈ r.launchedSlots
  · rw [if_pos hmem] at h
    rw [active_address_on_workspace] at h
    dsimp only at h
    simp only [Prod.mk.injEq] at h
    rw [← h.2.2.1, ← h.2.2.2.1]
    exact hinv
  · rw [if_neg hmem] at h
    dsimp only at h
    split at h
    · simp at h
    · rename_i hE
      have hw1 := ensure_focus_wm env wt w hE
      rw [hw1] at h
      split at h
      · simp at h
      · rename_i hW
        obtain ⟨hw3, ht3, hok, _⟩ := wait_fields ctx _ _ hW
        have hcount := hok _ rfl
        rw [hw3] at h
        cases pending with
        | none =>
          dsimp only at h
          rcases anchorStep_spec ctx
              { launched := r.launched + 1, known := r.known,
                launchedSlots := r.launchedSlots ++ [slotId] }
              (if env.appears r.launched = true then appendWindow ctx w else w) with
            ⟨anchor, r2, t4, hS, hl, hsl, _, _⟩
          rw [hS] at h
          dsimp only at h
          simp only [Prod.mk.injEq] at h
          rw [← h.2.2.1, ← h.2.2.2.1, hl]
          exact hcount
        | some q =>
          dsimp only at h
          rcases anchorStep_spec ctx
              { launched := r.launched + 1, known := r.known,
                launchedSlots := r.launchedSlots ++ [slotId] }
              (if env.appears r.launched = true then appendWindow ctx w else w) with
            ⟨anchor, r2, t4, hS, hl, hsl, _, _⟩
          rw [hS] at h
          dsimp only at h
          simp only [Prod.mk.injEq] at h
          rw [← h.2.2.1, ← h.2.2.2.1, hl]
          exact hcount

theorem runLeftAnchor_count (env : Env) (wt : Option WorkspaceTarget)
    (ctx : WorkspaceContext) (ws : Workset) (base : Nat) (t : LayoutNode) :
    ∀ (pending : Option ℚ) (r : Replay) (w : Wm),
      base + r.launched ≤ countOn ctx w →
      ∀ {a : Option Nat} {p' : Option ℚ} {r' : Replay} {w' : Wm} {tr : List Event},
        runLeftAnchor env wt ctx ws base t pending r w = (.ok a, p', r', w', tr) →
        base + r'.launched ≤ countOn ctx w' := by
  induction t with
  | leaf i c cw e =>
    intro pending r w hinv a p' r' w' tr h
    rw [runLeftAnchor] at h
    exact runLeaf_count env wt ctx ws base i c cw e pending r w hinv h
  | split d q l rt ihl ihr =>
    intro pending r w hinv a p' r' w' tr h
    rw [runLeftAnchor_split_eq] at h
    exact ihl pending r w hinv h

theorem countOn_congr (ctx : WorkspaceContext) {w1 w2 : Wm}
    (h : w1.clients = w2.clients) : countOn ctx w1 = countOn ctx w2 := by
  rw [countOn, countOn, h]

theorem runLayoutInner_count (env : Env) (wt : Option WorkspaceTarget)
    (ctx : WorkspaceContext) (ws : Workset) (base : Nat) (t : LayoutNode) :
    ∀ (pending : Option ℚ) (r : Replay) (w : Wm),
      base + r.launched ≤ countOn ctx w →
      ∀ {a : Option Nat} {p' : Option ℚ} {r' : Replay} {w' : Wm} {tr : List Event},
        runLayoutInner env wt ctx ws base t pending r w = (.ok a, p', r', w', tr) →
        base + r'.launched ≤ countOn ctx w' := by
  induction t with
  | leaf i c cw e =>
    intro pending r w hinv a p' r' w' tr h
    rw [runLayoutInner_leaf_eq] at h
    exact runLeaf_count env wt ctx ws base i c cw e pending r w hinv h
  | split d q l rt ihl ihr =>
    intro pending r w hinv a p' r' w' tr h
    rw [runLayoutInner] at h
    dsimp only at h
    cases hs : l.isSplit with
    | true =>
      rw [hs] at h
      simp only [if_true, eq_self_iff_true] at h
      rcases hPass : runLeftAnchor env wt ctx ws base l pending r w with
        ⟨res1, p1, r1, w1, t1⟩
      rw [hPass] at h
      cases res1 with
      | error e => simp at h
      | ok leftAnchor =>
        have hinv1 : base + r1.launched ≤ countOn ctx w1 :=
          runLeftAnchor_count env wt ctx ws base l pending r w hinv hPass
        dsimp only at h
        have hFocus : ∃ res2 w2 t2, (match leftAnchor with
            | some addr => focus_window env wt addr w1
            | none => ensure_workspace_focus env wt w1) = (res2, w2, t2) ∧
            w2.clients = w1.clients := by
          cases leftAnchor with
          | some addr =>
            rcases focus_window_spec env wt addr w1 with ⟨res2, act, t2, hF, hm⟩
            exact ⟨res2, _, t2, hF, rfl⟩
          | none =>
            rcases ensure_focus_spec env wt w1 with ⟨res2, t2, hF, hm⟩
            exact ⟨res2, w1, t2, hF, rfl⟩
        rcases hFocus with ⟨res2, w2, t2, hF, hcl2⟩
        rw [hF] at h
        cases res2 with
        | error e => simp at h
        | ok u =>
          have hinv2 : base + r1.launched ≤ countOn ctx w2 := by
            rw [countOn_congr ctx hcl2]
            exact hinv1
          dsimp only at h
          rcases hR : runLayoutInner env wt ctx ws base rt (some (to_hypr_split_ratio q)) r1 w2
            with ⟨res3, p3, r3, w3, t3⟩
          rw [hR] at h
          cases res3 with
          | error e => simp at h
          | ok rightAnchor =>
            have hinv3 := ihr _ _ _ hinv2 hR
            dsimp only at h
            simp only [wait_for_clients_on_workspace] at h
            split at h
            · simp at h
            · rename_i uw w4 t4 heq4
              have hw4 : w4 = w3 := by
                rcases ite_eq_iff.1 heq4 with ⟨_, hh⟩ | ⟨_, hh⟩
                · simp only [Prod.mk.injEq] at hh
                  exact hh.2.1.symm
                · simp at hh
              subst hw4
              have hFocus2 : ∃ res5 w5 t5, (match leftAnchor with
                  | some addr => focus_window env wt addr w4
                  | none => ensure_workspace_focus env wt w4) = (res5, w5, t5) ∧
                  w5.clients = w4.clients := by
                cases leftAnchor with
                | some addr =>
                  rcases focus_window_spec env wt addr w4 with ⟨res5, act, t5, hF2, hm⟩
                  exact ⟨res5, _, t5, hF2, rfl⟩
                | none =>
                  rcases ensure_focus_spec env wt w4 with ⟨res5, t5, hF2, hm⟩
                  exact ⟨res5, w4, t5, hF2, rfl⟩
              rcases hFocus2 with ⟨res5, w5, t5, hF2, hcl5⟩
              rw [hF2] at h
              cases res5 with
              | error e => simp at h
              | ok u5 =>
                have hinv4 : base + r3.launched ≤ countOn ctx w5 := by
                  rw [countOn_congr ctx hcl5]
                  exact hinv3
                dsimp only at h
                rcases hL2 : runLayoutInner env wt ctx ws base l p1 r3 w5 with
                  ⟨res6, p6, r6, w6, t6⟩
                rw [hL2] at h
                cases res6 with
                | error e => simp at h
                | ok remainingLeft =>
                  have hinv6 := ihl _ _ _ hinv4 hL2
                  simp only [Prod.mk.injEq] at h
                  rcases h with ⟨h1, h2, h3, h4, h5⟩
                  subst h3 h4
                  exact hinv6
    | false =>
      rw [hs] at h
      simp only [Bool.false_eq_true, if_false] at h
      rcases hPass : runLayoutInner env wt ctx ws base l pending r w with
        ⟨res1, p1, r1, w1, t1⟩
      rw [hPass] at h
      cases res1 with
      | error e => simp at h
      | ok leftAnchor =>
        have hinv1 : base + r1.launched ≤ countOn ctx w1 := ihl _ _ _ hinv hPass
        dsimp only at h
        have hFocus : ∃ res2 w2 t2, (match leftAnchor with
            | some addr => focus_window env wt addr w1
            | none => ensure_workspace_focus env wt w1) = (res2, w2, t2) ∧
            w2.clients = w1.clients := by
          cases leftAnchor with
          | some addr =>
            rcases focus_window_spec env wt addr w1 with ⟨res2, act, t2, hF, hm⟩
            exact ⟨res2, _, t2, hF, rfl⟩
          | none =>
            rcases ensure_focus_spec env wt w1 with ⟨res2, t2, hF, hm⟩
            exact ⟨res2, w1, t2, hF, rfl⟩
        rcases hFocus with ⟨res2, w2, t2, hF, hcl2⟩
        rw [hF] at h
        cases res2 with
        | error e => simp at h
        | ok u =>
          have hinv2 : base + r1.launched ≤ countOn ctx w2 := by
            rw [countOn_congr ctx hcl2]
            exact hinv1
          dsimp only at h
          rcases hR : runLayoutInner env wt ctx ws base rt (some (to_hypr_split_ratio q)) r1 w2
            with ⟨res3, p3, r3, w3, t3⟩
          rw [hR] at h
          cases res3 with
          | error e => simp at h
          | ok rightAnchor =>
            have hinv3 := ihr _ _ _ hinv2 hR
            dsimp only at h
            simp only [wait_for_clients_on_workspace] at h
            split at h
            · simp at h
            · rename_i uw w4 t4 heq4
              have hw4 : w4 = w3 := by
                rcases ite_eq_iff.1 heq4 with ⟨_, hh⟩ | ⟨_, hh⟩
                · simp only [Prod.mk.injEq] at hh
                  exact hh.2.1.symm
                · simp at hh
              subst hw4
              simp only [Prod.mk.injEq] at h
              rcases h with ⟨h1, h2, h3, h4, h5⟩
              subst h3 h4
              exact hinv3

theorem timeoutAbort_prepend {ctx : WorkspaceContext} {e : RunError} {tr : List Event}
    (pre0 : List Event) (h : timeoutAbort ctx e tr) : timeoutAbort ctx e (pre0 ++ tr) := by
  rcases h with h | ⟨obs, exp, pre, slot, cmd, he, hlt, htr⟩
  · exact Or.inl h
  · exact Or.inr ⟨obs, exp, pre0 ++ pre, slot, cmd, he, hlt,
      by rw [htr, List.append_assoc]⟩

theorem runLeaf_timeout (env : Env) (wt : Option WorkspaceTarget)
    (ctx : WorkspaceContext) (ws : Workset) (base : Nat) (slotId : Nat) (cmd : Str)
    (cwdO : Option Str) (envO : List (Str × Str)) (pending : Option ℚ) (r : Replay)
    (w : Wm) {e : RunError} {p' : Option ℚ} {r' : Replay} {w' : Wm} {tr : List Event}
    (h : runLeaf env wt ctx ws base slotId cmd cwdO envO pending r w =
      (.error e, p', r', w', tr)) :
    timeoutAbort ctx e tr := by
  rw [runLeaf.eq_def] at h
  by_cases hmem : slotId ∈ r.launchedSlots
  · rw [if_pos hmem] at h
    rw [active_address_on_workspace] at h
    dsimp only at h
    simp at h
  · rw [if_neg hmem] at h
    dsimp only at h
    split at h
    · rename_i hE
      simp only [Prod.mk.injEq, Except.error.injEq] at h
      rcases ensure_focus_error_switch env wt w hE with ⟨lbl, rfl⟩
      exact Or.inl ⟨lbl, h.1.symm⟩
    · rename_i hE
      rw [ensure_focus_wm env wt w hE] at h
      split at h
      · rename_i hW
        obtain ⟨hw3, ht3, _, herr⟩ := wait_fields ctx _ _ hW
        obtain ⟨heW, hlt⟩ := herr _ rfl
        simp only [Prod.mk.injEq, Except.error.injEq] at h
        obtain ⟨he, hp, hr, hw, htr⟩ := h
        subst he
        subst htr
        rw [heW, ht3]
        rw [List.append_assoc]
        simp only [List.cons_append, List.nil_append]
        exact Or.inr ⟨_, _, _, _, _, rfl, hlt, rfl⟩
      · rename_i hW
        obtain ⟨hw3, ht3, hok, _⟩ := wait_fields ctx _ _ hW
        rw [hw3] at h
        cases pending with
        | none =>
          dsimp only at h
          simp at h
        | some qq =>
          dsimp only at h
          simp at h

theorem runLeftAnchor_timeout (env : Env) (wt : Option WorkspaceTarget)
    (ctx : WorkspaceContext) (ws : Workset) (base : Nat) (t : LayoutNode) :
    ∀ (pending : Option ℚ) (r : Replay) (w : Wm)
      {e : RunError} {p' : Option ℚ} {r' : Replay} {w' : Wm} {tr : List Event},
      runLeftAnchor env wt ctx ws base t pending r w = (.error e, p', r', w', tr) →
      timeoutAbort ctx e tr := by
  induction t with
  | leaf i c cw e =>
    intro pending r w e1 p' r' w' tr h
    rw [runLeftAnchor] at h
    exact runLeaf_timeout env wt ctx ws base i c cw e pending r w h
  | split d q l rt ihl ihr =>
    intro pending r w e1 p' r' w' tr h
    rw [runLeftAnchor_split_eq] at h
    exact ihl pending r w h

theorem runLayoutInner_timeout (env : Env) (wt : Option WorkspaceTarget)
    (ctx : WorkspaceContext) (ws : Workset) (base : Nat) (t : LayoutNode) :
    ∀ (pending : Option ℚ) (r : Replay) (w : Wm),
      base + r.launched ≤ countOn ctx w →
      ∀ {e : RunError} {p' : Option ℚ} {r' : Replay} {w' : Wm} {tr : List Event},
        runLayoutInner env wt ctx ws base t pending r w = (.error e, p', r', w', tr) →
        timeoutAbort ctx e tr := by
  induction t with
  | leaf i c cw e =>
    intro pending r w hinv e1 p' r' w' tr h
    rw [runLayoutInner_leaf_eq] at h
    exact runLeaf_timeout env wt ctx ws base i c cw e pending r w h
  | split d q l rt ihl ihr =>
    intro pending r w hinv e1 p' r' w' tr h
    rw [runLayoutInner] at h
    dsimp only at h
    cases hs : l.isSplit with
    | true =>
      rw [hs] at h
      simp only [if_true, eq_self_iff_true] at h
      rcases hPass : runLeftAnchor env wt ctx ws base l pending r w with
        ⟨res1, p1, r1, w1, t1⟩
      rw [hPass] at h
      cases res1 with
      | error e2 =>
        dsimp only at h
        simp only [Prod.mk.injEq, Except.error.injEq] at h
        obtain ⟨he, _, _, _, htr⟩ := h
        subst he
        subst htr
        exact runLeftAnchor_timeout env wt ctx ws base l pending r w hPass
      | ok leftAnchor =>
        have hinv1 : base + r1.launched ≤ countOn ctx w1 :=
          runLeftAnchor_count env wt ctx ws base l pending r w hinv hPass
        dsimp only at h
        have hFocus : ∃ res2 w2 t2, (match leftAnchor with
            | some addr => focus_window env wt addr w1
            | none => ensure_workspace_focus env wt w1) = (res2, w2, t2) ∧
            w2.clients = w1.clients ∧
            ∀ e2, res2 = .error e2 → ∃ lbl, e2 = RunError.switchTimeout lbl := by
          cases leftAnchor with
          | some addr =>
            rcases focus_window_spec env wt addr w1 with ⟨res2, act, t2, hF, hm⟩
            exact ⟨res2, _, t2, hF, rfl, fun e2 he2 =>
              focus_window_error_switch env wt addr w1 (he2 ▸ hF)⟩
          | none =>
            rcases ensure_focus_spec env wt w1 with ⟨res2, t2, hF, hm⟩
            exact ⟨res2, w1, t2, hF, rfl, fun e2 he2 =>
              ensure_focus_error_switch env wt w1 (he2 ▸ hF)⟩
        rcases hFocus with ⟨res2, w2, t2, hF, hcl2, herr2⟩
        rw [hF] at h
        cases res2 with
        | error e2 =>
          dsimp only at h
          simp only [Prod.mk.injEq, Except.error.injEq] at h
          obtain ⟨he, _, _, _, htr⟩ := h
          subst he
          subst htr
          rcases herr2 e2 rfl with ⟨lbl, rfl⟩
          exact Or.inl ⟨lbl, rfl⟩
        | ok u =>
          have hinv2 : base + r1.launched ≤ countOn ctx w2 := by
            rw [countOn_congr ctx hcl2]
            exact hinv1
          dsimp only at h
          rcases hR : runLayoutInner env wt ctx ws base rt (some (to_hypr_split_ratio q)) r1 w2
            with ⟨res3, p3, r3, w3, t3⟩
          rw [hR] at h
          cases res3 with
          | error e3 =>
            dsimp only at h
            simp only [Prod.mk.injEq, Except.error.injEq] at h
            obtain ⟨he, _, _, _, htr⟩ := h
            subst he
            subst htr
            exact timeoutAbort_prepend _ (ihr _ _ _ hinv2 hR)
          | ok rightAnchor =>
            have hinv3 := runLayoutInner_count env wt ctx ws base rt _ _ _ hinv2 hR
            dsimp only at h
            simp only [wait_for_clients_on_workspace] at h
            split at h
            · rename_i eW w4 t4 heq4
              rcases ite_eq_iff.1 heq4 with ⟨_, hh⟩ | ⟨hcond, hh⟩
              · simp at hh
              · exact absurd hinv3 hcond
            · rename_i uw w4 t4 heq4
              have hw4 : w4 = w3 := by
                rcases ite_eq_iff.1 heq4 with ⟨_, hh⟩ | ⟨_, hh⟩
                · simp only [Prod.mk.injEq] at hh
                  exact hh.2.1.symm
                · simp at hh
              subst hw4
              have hFocus2 : ∃ res5 w5 t5, (match leftAnchor with
                  | some addr => focus_window env wt addr w4
                  | none => ensure_workspace_focus env wt w4) = (res5, w5, t5) ∧
                  w5.clients = w4.clients ∧
                  ∀ e5, res5 = .error e5 → ∃ lbl, e5 = RunError.switchTimeout lbl := by
                cases leftAnchor with
                | some addr =>
                  rcases focus_window_spec env wt addr w4 with ⟨res5, act, t5, hF2, hm⟩
                  exact ⟨res5, _, t5, hF2, rfl, fun e5 he5 =>
                    focus_window_error_switch env wt addr w4 (he5 ▸ hF2)⟩
                | none =>
                  rcases ensure_focus_spec env wt w4 with ⟨res5, t5, hF2, hm⟩
                  exact ⟨res5, w4, t5, hF2, rfl, fun e5 he5 =>
                    ensure_focus_error_switch env wt w4 (he5 ▸ hF2)⟩
              rcases hFocus2 with ⟨res5, w5, t5, hF2, hcl5, herr5⟩
              rw [hF2] at h
              cases res5 with
              | error e5 =>
                dsimp only at h
                simp only [Prod.mk.injEq, Except.error.injEq] at h
                obtain ⟨he, _, _, _, htr⟩ := h
                subst he
                subst htr
                rcases herr5 e5 rfl with ⟨lbl, rfl⟩
                exact Or.inl ⟨lbl, rfl⟩
              | ok u5 =>
                have hinv4 : base + r3.launched ≤ countOn ctx w5 := by
                  rw [countOn_congr ctx hcl5]
                  exact hinv3
                dsimp only at h
                rcases hL2 : runLayoutInner env wt ctx ws base l p1 r3 w5 with
                  ⟨res6, p6, r6, w6, t6⟩
                rw [hL2] at h
                cases res6 with
                | error e6 =>
                  dsimp only at h
                  simp only [Prod.mk.injEq, Except.error.injEq] at h
                  obtain ⟨he, _, _, _, htr⟩ := h
                  subst he
                  subst htr
                  exact timeoutAbort_prepend _ (ihl _ _ _ hinv4 hL2)
                | ok remainingLeft =>
                  simp at h
    | false =>
      rw [hs] at h
      simp only [Bool.false_eq_true, if_false] at h
      rcases hPass : runLayoutInner env wt ctx ws base l pending r w with
        ⟨res1, p1, r1, w1, t1⟩
      rw [hPass] at h
      cases res1 with
      | error e2 =>
        dsimp only at h
        simp only [Prod.mk.injEq, Except.error.injEq] at h
        obtain ⟨he, _, _, _, htr⟩ := h
        subst he
        subst htr
        exact ihl _ _ _ hinv hPass
      | ok leftAnchor =>
        have hinv1 : base + r1.launched ≤ countOn ctx w1 :=
          runLayoutInner_count env wt ctx ws base l pending r w hinv hPass
        dsimp only at h
        have hFocus : ∃ res2 w2 t2, (match leftAnchor with
            | some addr => focus_window env wt addr w1
            | none => ensure_workspace_focus env wt w1) = (res2, w2, t2) ∧
            w2.clients = w1.clients ∧
            ∀ e2, res2 = .error e2 → ∃ lbl, e2 = RunError.switchTimeout lbl := by
          cases leftAnchor with
          | some addr =>
            rcases focus_window_spec env wt addr w1 with ⟨res2, act, t2, hF, hm⟩
            exact ⟨res2, _, t2, hF, rfl, fun e2 he2 =>
              focus_window_error_switch env wt addr w1 (he2 ▸ hF)⟩
          | none =>
            rcases ensure_focus_spec env wt w1 with ⟨res2, t2, hF, hm⟩
            exact ⟨res2, w1, t2, hF, rfl, fun e2 he2 =>
              ensure_focus_error_switch env wt w1 (he2 ▸ hF)⟩
        rcases hFocus with ⟨res2, w2, t2, hF, hcl2, herr2⟩
        rw [hF] at h
        cases res2 with
        | error e2 =>
          dsimp only at h
          simp only [Prod.mk.injEq, Except.error.injEq] at h
          obtain ⟨he, _, _, _, htr⟩ := h
          subst he
          subst htr
          rcases herr2 e2 rfl with ⟨lbl, rfl⟩
          exact Or.inl ⟨lbl, rfl⟩
        | ok u =>
          have hinv2 : base + r1.launched ≤ countOn ctx w2 := by
            rw [countOn_congr ctx hcl2]
            exact hinv1
          dsimp only at h
          rcases hR : runLayoutInner env wt ctx ws base rt (some (to_hypr_split_ratio q)) r1 w2
            with ⟨res3, p3, r3, w3, t3⟩
          rw [hR] at h
          cases res3 with
          | error e3 =>
            dsimp only at h
            simp only [Prod.mk.injEq, Except.error.injEq] at h
            obtain ⟨he, _, _, _, htr⟩ := h
            subst he
            subst htr
            exact timeoutAbort_prepend _ (ihr _ _ _ hinv2 hR)
          | ok rightAnchor =>
            have hinv3 := runLayoutInner_count env wt ctx ws base rt _ _ _ hinv2 hR
            dsimp only at h
            simp only [wait_for_clients_on_workspace] at h
            split at h
            · rename_i eW w4 t4 heq4
              rcases ite_eq_iff.1 heq4 with ⟨_, hh⟩ | ⟨hcond, hh⟩
              · simp at hh
              · exact absurd hinv3 hcond
            · rename_i uw w4 t4 heq4
              simp at h

/-- C6: if the window count on the target workspace does not reach the
expected base-plus-launched count after a leaf's exec dispatch, the whole
replay fails with an appear-timeout error naming the workspace label, the
timeout duration, and the observed and expected counts (observed strictly
below expected), and the trace ends at the failing leaf's exec dispatch
followed only by the timed-out poll query — no further tree leaf is
exec-dispatched after the failure. -/
theorem appear_timeout_aborts_replay (env : Env) (t : LayoutNode) (ws : Workset)
    (ctx : WorkspaceContext) (wt : Option WorkspaceTarget) (w : Wm)
    (lbl : Str) (dur obs exp : Nat) (w' : Wm) (tr : List Event)
    (h : run_layout env t ws ctx wt w =
      (.error (.appearTimeout lbl dur obs exp), w', tr)) :
    lbl = ctx.label ∧ dur = WINDOW_APPEAR_TIMEOUT_SECS ∧ obs < exp ∧
      ∃ pre slot cmd, tr = pre ++ [.dispatchExec (some slot) cmd, .queryClients] := by
  rw [run_layout] at h
  have hbase :
      ((w.clients.filter fun c => ctx.matches c.workspace).foldl
          (fun s c => if c.address ∈ s then s else s ++ [c.address]) []).length + 0 ≤
        countOn ctx w := by
    have := dedupFoldl_length (w.clients.filter fun c => ctx.matches c.workspace) []
    simpa [countOn] using this
  rcases hI : runLayoutInner env wt ctx ws
      ((w.clients.filter fun c => ctx.matches c.workspace).foldl
        (fun s c => if c.address ∈ s then s else s ++ [c.address]) []).length t none
      { launched := 0,
        known :=
          (w.clients.filter fun c => ctx.matches c.workspace).foldl
            (fun s c => if c.address ∈ s then s else s ++ [c.address]) [],
        launchedSlots := [] } w with ⟨res1, p1, r1, w1, t1⟩
  rw [hI] at h
  cases res1 with
  | ok u => simp at h
  | error e1 =>
    dsimp only at h
    simp only [Prod.mk.injEq, Except.error.injEq] at h
    obtain ⟨he, hw, htr⟩ := h
    have habort := runLayoutInner_timeout env wt ctx ws _ t none _ w hbase hI
    rcases habort with ⟨lbl2, hsw⟩ | ⟨obs2, exp2, pre, slot, cmd, heq2, hlt2, htr2⟩
    · rw [he] at hsw
      cases hsw
    · rw [he] at heq2
      injection heq2 with h1 h2 h3 h4
      subst h1
      subst h2
      subst h3
      subst h4
      refine ⟨rfl, rfl, hlt2, .queryClients :: pre, slot, cmd, ?_⟩
      rw [← htr, htr2]
      rfl

theorem appear_timeout_aborts_replay_witness :
    cexCtx.label = cexCtx.label ∧ 8 = WINDOW_APPEAR_TIMEOUT_SECS ∧ 1 < 2 ∧
      ∃ pre slot cmd,
        (run_layout c6env cexTree cexWorkset cexCtx none cexWm).2.2 =
          pre ++ [.dispatchExec (some slot) cmd, .queryClients] :=
  appear_timeout_aborts_replay c6env cexTree cexWorkset cexCtx none cexWm
    cexCtx.label 8 1 2
    (run_layout c6env cexTree cexWorkset cexCtx none cexWm).2.1
    (run_layout c6env cexTree cexWorkset cexCtx none cexWm).2.2
    (by rfl)
